import Mathlib

/-!
Incentives module: registration, cancellation, genesis and distribution.

A shallow embedding of `x/incentives/keeper/proposals.go`
(`Keeper.RegisterIncentive`, `Keeper.CancelIncentive`) and of
`x/incentives/genesis.go` (`InitGenesis`, `ExportGenesis`), with a model of
the distribution engine (`Keeper.DistributeIncentives`) written from section
4.3 of the specification, since only its test is among the sources.

* The module state (params, incentive store, gas meters) is passed explicitly.
  The store is a list of incentives in ascending key order, which is the order
  in which a prefix iterator of the key-value store visits them.
* `sdk.Dec` is the big integer it wraps (the value scaled by `10^18`).
* The Go result `(*types.Incentive, error)` is a record with two optional
  fields, together with the state after the call.
* Keeper and type declarations that are not among the sources are modelled
  from the specification and marked as such.
-/

namespace Incentives

/-! ## `sdk.Dec` and `sdk.DecCoins` (cosmos-sdk `types/decimal.go`, `types/dec_coin.go`) -/

/-- Fixed-point decimal `sdk.Dec`: the field `i` is the wrapped `big.Int`, that
is the represented value multiplied by `10^18`. -/
structure Dec where
  i : Int
deriving DecidableEq

/-- Text of `big.Int.MarshalText`: the integer in base 10, a minus sign for a
negative number followed by its digits, `"0"` for zero. -/
def bigIntMarshalText (x : Int) : String :=
  if x < 0 then "-" ++ Nat.repr x.natAbs else Nat.repr x.natAbs

namespace Dec

/-- Number of decimal places of `sdk.Dec` (`sdk.Precision`). -/
def Precision : Nat := 18

/-- The decimal `1.0` (`sdk.OneDec()`). -/
def OneDec : Dec := ⟨10 ^ Precision⟩

/-- The decimal `0` (`sdk.ZeroDec()`). -/
def ZeroDec : Dec := ⟨0⟩

/-- Addition `d.Add(d2)` on the wrapped integers. The library panics when the
result needs more than 315 bits; the wrapped integer is unbounded here, which
agrees with the library on every sum of rates below `2^315 / 10^18`. -/
def Add (d d2 : Dec) : Dec := ⟨d.i + d2.i⟩

/-- Comparison `d.GT(d2)`: strictly greater. -/
def GT (d d2 : Dec) : Bool := decide (d2.i < d.i)

/-- Method `d.Marshal()` of `sdk.Dec`: `d.i.MarshalText()`, the text of the
wrapped integer. -/
def Marshal (d : Dec) : String := bigIntMarshalText d.i

/-- Method `d.Size()` of `sdk.Dec`, the gogoproto size of the value:
`bz, _ := d.Marshal(); return len(bz)`. It counts the bytes of the serialised
integer (all of them ASCII), not the magnitude of the decimal. -/
def Size (d : Dec) : Nat := d.Marshal.length

end Dec

/-- One entry `sdk.DecCoin` of an allocation list: a denomination and a rate. -/
structure DecCoin where
  Denom : String
  Amount : Dec
deriving DecidableEq

/-- Allocation list `sdk.DecCoins`. -/
abbrev DecCoins := List DecCoin

/-! ## Module types -/

/-- Contract or participant address (`common.Address`, 20 bytes), held as the
big-endian number of its bytes, so that byte order of keys is `<` on numbers. -/
abbrev Address := Nat

/-- Modelled from the spec: `types.Params` (the declaration is not among the
sources). Section 3: a singleton with the enabled flag and the per-allocation
rate ceiling. -/
structure Params where
  EnableIncentives : Bool
  AllocationLimit : Dec
deriving DecidableEq

/-- Modelled from the spec: `types.Incentive` (the declaration is not among the
sources). Section 3: keyed by contract address, with the allocations, the
remaining epochs and the cumulative usage of the running cycle. -/
structure Incentive where
  Contract : Address
  Allocations : DecCoins
  Epochs : Nat
  TotalGas : Nat
deriving DecidableEq

/-- Modelled from the spec: `types.GasMeter`, the usage meter of section 3,
keyed by contract and participant. -/
structure GasMeter where
  Contract : Address
  Participant : Address
  CumulativeGas : Nat
deriving DecidableEq

/-- Modelled from the spec: `types.NewIncentive` (not among the sources).
Section 4.2: the incentive is created with the given epochs and usage zero. -/
def NewIncentive (contract : Address) (allocations : DecCoins) (epochs : Nat) : Incentive :=
  { Contract := contract, Allocations := allocations, Epochs := epochs, TotalGas := 0 }

/-- Persistent state of the module as seen through `ctx`: the params, the
incentive store in ascending key order and the gas meter store. -/
structure State where
  params : Params
  incentives : List Incentive
  gasMeters : List GasMeter
deriving DecidableEq

/-- What the keeper reads from the other modules: the mint denomination of the
mint keeper and the supply test of the bank keeper. -/
structure Env where
  MintDenom : String
  HasSupply : String → Bool

/-- Wrapped sentinel errors returned by the keeper. -/
inductive Sentinel where
  | ErrInternalIncentive
  | ErrInvalidCoins
  | ErrInvalidAddress
deriving DecidableEq

/-- Errors of `RegisterIncentive` and `CancelIncentive`, one constructor for
each `return` of an error, carrying the values formatted into the message. -/
inductive Err where
  | disabled
  | alreadyRegistered (contract : Address)
  | zeroSupply (denom : String)
  | aboveLimit (denom : String) (amount limit : Dec)
  | overAllocated (denom : String) (allocationSum : Dec)
  | unmatchingContract (contract : Address)
deriving DecidableEq

/-- Sentinel error wrapped at each error site. -/
def Err.sentinel : Err → Sentinel
  | .disabled => .ErrInternalIncentive
  | .alreadyRegistered _ => .ErrInternalIncentive
  | .zeroSupply _ => .ErrInvalidCoins
  | .aboveLimit _ _ _ => .ErrInternalIncentive
  | .overAllocated _ _ => .ErrInternalIncentive
  | .unmatchingContract _ => .ErrInvalidAddress

/-! ## Store accessors of the keeper -/

/-- Modelled from the spec: `Keeper.GetParams` (not among the sources), the
accessor of the params singleton. -/
def GetParams (s : State) : Params := s.params

/-- Modelled from the spec: `Keeper.GetIncentive` (not among the sources).
Section 4.1: `get` returns found or not-found for the key. -/
def GetIncentive (s : State) (contract : Address) : Option Incentive :=
  s.incentives.find? (fun inc => decide (inc.Contract = contract))

/-- Modelled from the spec: `Keeper.IsIncentiveRegistered` (not among the
sources): whether the store holds the key. -/
def IsIncentiveRegistered (s : State) (contract : Address) : Bool :=
  (GetIncentive s contract).isSome

/-- Modelled from the spec: `Keeper.GetAllIncentives` (not among the sources):
all incentives, in the order of the store iterator (sorted by key bytes). -/
def GetAllIncentives (s : State) : List Incentive := s.incentives

/-- Writes an incentive into a key-ordered list: an equal key is overwritten,
otherwise the incentive is inserted at its place. -/
def upsert (inc : Incentive) : List Incentive → List Incentive
  | [] => [inc]
  | x :: rest =>
    if inc.Contract < x.Contract then inc :: x :: rest
    else if inc.Contract = x.Contract then inc :: rest
    else x :: upsert inc rest

/-- Modelled from the spec: `Keeper.SetIncentive` (not among the sources):
stores the incentive under the key of its contract. -/
def SetIncentive (s : State) (incentive : Incentive) : State :=
  { s with incentives := upsert incentive s.incentives }

/-- Modelled from the spec: `Keeper.DeleteIncentive` (not among the sources).
Section 4.1: removes the key of the contract of the incentive; idempotent. -/
def DeleteIncentive (s : State) (incentive : Incentive) : State :=
  { s with incentives :=
      s.incentives.filter (fun inc => !decide (inc.Contract = incentive.Contract)) }

/-- Loop of the store iterator: the callback threads an accumulator and
answers whether to stop. -/
def iterateList {α : Type} (cb : α → Incentive → α × Bool) : List Incentive → α → α
  | [], acc => acc
  | inc :: rest, acc =>
    if (cb acc inc).2 then (cb acc inc).1 else iterateList cb rest (cb acc inc).1

/-- Modelled from the spec: `Keeper.IterateIncentives` (not among the sources).
Section 4.1: visits the entries in key order and stops when the callback
returns `true`. The variables the Go closure captures are the accumulator. -/
def IterateIncentives {α : Type} (s : State) (cb : α → Incentive → α × Bool) (init : α) : α :=
  iterateList cb s.incentives init

/-- Well-formed store: keys strictly ascending, hence unique. -/
def State.WF (s : State) : Prop :=
  (s.incentives.map (fun inc => inc.Contract)).Pairwise (fun a b => a < b)

instance (s : State) : Decidable s.WF := by
  unfold State.WF; infer_instance

/-! ## `Keeper.RegisterIncentive` -/

/-- Go map `map[string]sdk.Dec`, read through its lookup. -/
abbrev DecMap := String → Option Dec

/-- Assignment `m[k] = v` on a Go map. -/
def DecMap.set (m : DecMap) (k : String) (v : Dec) : DecMap :=
  fun k2 => if k2 = k then some v else m k2

/-- The empty map `make(map[string]sdk.Dec)`. -/
def DecMap.empty : DecMap := fun _ => none

/-- Loop of lines 37-54 over the requested allocations: the supply check for
denominations other than the mint denomination, then the allocation limit
check, both on the same allocation before the next one is looked at. -/
def checkAllocations (env : Env) (params : Params) : DecCoins → Option Err
  | [] => none
  | al :: rest =>
    if al.Denom ≠ env.MintDenom ∧ env.HasSupply al.Denom = false then
      some (.zeroSupply al.Denom)
    else if al.Amount.GT params.AllocationLimit then
      some (.aboveLimit al.Denom al.Amount params.AllocationLimit)
    else checkAllocations env params rest

/-- Inner loop of the iterator callback (lines 65-74): adds the allocations of
one registered incentive to `currentAllocations`. -/
def addAllocations (currentAllocations : DecMap) : DecCoins → DecMap
  | [] => currentAllocations
  | al :: rest =>
    if al.Amount.Size = 0 then addAllocations currentAllocations rest
    else
      match currentAllocations al.Denom with
      | some cur => addAllocations (currentAllocations.set al.Denom (cur.Add al.Amount)) rest
      | none => addAllocations (currentAllocations.set al.Denom al.Amount) rest

/-- Loop of lines 79-93 over the requested allocations against the sums of
the registered incentives. -/
def checkAllocationSums (currentAllocations : DecMap) : DecCoins → Option Err
  | [] => none
  | al :: rest =>
    match currentAllocations al.Denom with
    | none => checkAllocationSums currentAllocations rest
    | some cur =>
      if (al.Amount.Add cur).Size > 1 then
        some (.overAllocated al.Denom (al.Amount.Add cur))
      else checkAllocationSums currentAllocations rest

/-- Result of `RegisterIncentive`: the Go pair `(*types.Incentive, error)`
and the state after the call. -/
structure RegisterResult where
  incentive : Option Incentive
  err : Option Err
  state : State
deriving DecidableEq

/-- The closure passed to `IterateIncentives` (lines 64-76): it adds the
allocations of the visited incentive to the captured map `currentAllocations`
and returns `false`, so the iteration never stops early. -/
def sumCallback : DecMap → Incentive → DecMap × Bool :=
  fun currentAllocations incentive =>
    (addAllocations currentAllocations incentive.Allocations, false)

/-- Lines 56-94: the check of the per-denomination sums, skipped when no
incentive is registered. -/
def checkRegistered (s : State) (allocations : DecCoins) : Option Err :=
  if (GetAllIncentives s).length ≠ 0 then
    checkAllocationSums (IterateIncentives s sumCallback DecMap.empty) allocations
  else none

/-- Embedding of `Keeper.RegisterIncentive` (lines 11-101). -/
def RegisterIncentive (env : Env) (s : State) (contract : Address)
    (allocations : DecCoins) (epochs : Nat) : RegisterResult :=
  if (GetParams s).EnableIncentives = false then
    ⟨none, some .disabled, s⟩
  else if IsIncentiveRegistered s contract then
    ⟨none, some (.alreadyRegistered contract), s⟩
  else
    match checkAllocations env (GetParams s) allocations with
    | some e => ⟨none, some e, s⟩
    | none =>
      match checkRegistered s allocations with
      | some e => ⟨none, some e, s⟩
      | none =>
        ⟨some (NewIncentive contract allocations epochs), none,
          SetIncentive s (NewIncentive contract allocations epochs)⟩

/-! ## `Keeper.CancelIncentive` -/

/-- Embedding of `Keeper.CancelIncentive` (lines 104-118): the returned error
and the state after the call. -/
def CancelIncentive (s : State) (contract : Address) : Option Err × State :=
  match GetIncentive s contract with
  | none => (some (.unmatchingContract contract), s)
  | some incentive => (none, DeleteIncentive s incentive)

/-! ## Per-denomination totals of the registry -/

/-- Rate in the half-open interval `(0, 1]`. -/
def Dec.inUnit (d : Dec) : Prop := 0 < d.i ∧ d.i ≤ Dec.OneDec.i

instance (d : Dec) : Decidable d.inUnit := by
  unfold Dec.inUnit; infer_instance

/-- Sum of the rates that an allocation list gives to `denom`. -/
def denomSum (denom : String) : DecCoins → Dec
  | [] => Dec.ZeroDec
  | al :: rest => if al.Denom = denom then al.Amount.Add (denomSum denom rest) else denomSum denom rest

/-- Sum of the rates of `denom` over all incentives of a list. -/
def registryTotal (denom : String) : List Incentive → Dec
  | [] => Dec.ZeroDec
  | inc :: rest => (denomSum denom inc.Allocations).Add (registryTotal denom rest)

/-- Invariant I1: no denomination is allocated above `1.0` in total. -/
def I1 (s : State) : Prop :=
  ∀ denom, (registryTotal denom s.incentives).GT Dec.OneDec = false

/-- Every stored rate is non-negative. -/
def ratesNonneg (incs : List Incentive) : Prop :=
  ∀ inc ∈ incs, ∀ al ∈ inc.Allocations, 0 ≤ al.Amount.i

instance (incs : List Incentive) : Decidable (ratesNonneg incs) := by
  unfold ratesNonneg; infer_instance

/-- Every stored rate lies in `(0, 1]`. -/
def ratesInUnit (incs : List Incentive) : Prop :=
  ∀ inc ∈ incs, ∀ al ∈ inc.Allocations, al.Amount.inUnit

instance (incs : List Incentive) : Decidable (ratesInUnit incs) := by
  unfold ratesInUnit; infer_instance

/-- Some allocation of the list names `denom`. -/
def mentions (denom : String) (als : DecCoins) : Bool :=
  als.any (fun al => decide (al.Denom = denom))

/-- Some incentive of the list has an allocation naming `denom`. -/
def registryMentions (denom : String) (incs : List Incentive) : Bool :=
  incs.any (fun inc => mentions denom inc.Allocations)

/-- Rule 3 fails on the allocation: its denomination is not the mint
denomination and has no supply. -/
def Env.unknownDenom (env : Env) (al : DecCoin) : Bool :=
  decide (al.Denom ≠ env.MintDenom) && !env.HasSupply al.Denom

/-- Value of a map entry, zero when the key is absent. -/
def DecMap.val (m : DecMap) (k : String) : Int :=
  match m k with
  | some v => v.i
  | none => 0

/-! ## Example inputs -/

/-- Environment with mint denomination `aevmos` in which only `acoin` has supply. -/
def exampleEnv : Env :=
  { MintDenom := "aevmos", HasSupply := fun d => decide (d = "acoin") }

/-- Enabled module with ceiling `1.0` and one incentive: contract `1` with
rate `0.6` on `acoin`, and one gas meter. -/
def stateA : State :=
  { params := { EnableIncentives := true, AllocationLimit := ⟨10 ^ 18⟩ }
    incentives := [{ Contract := 1, Allocations := [⟨"acoin", ⟨6 * 10 ^ 17⟩⟩], Epochs := 10, TotalGas := 0 }]
    gasMeters := [{ Contract := 1, Participant := 77, CumulativeGas := 500 }] }

/-- Enabled module with ceiling `0.05` and no incentive. -/
def stateEmpty : State :=
  { params := { EnableIncentives := true, AllocationLimit := ⟨5 * 10 ^ 16⟩ }
    incentives := []
    gasMeters := [] }

/-- The state `stateA` with the enabled flag switched off. -/
def stateDisabled : State :=
  { stateA with params := { EnableIncentives := false, AllocationLimit := ⟨10 ^ 18⟩ } }

/-! ## Genesis (`x/incentives/genesis.go`) -/

/-- Modelled from the spec: `types.GenesisState` (the declaration is not among
the sources). Section 6: the bulk load and dump of `{params, incentives}`. -/
structure GenesisState where
  Params : Incentives.Params
  Incentives : List Incentive
deriving DecidableEq

/-- Modelled from the spec: `Keeper.SetParams` (not among the sources), the
write of the params singleton. -/
def SetParams (s : State) (params : Params) : State :=
  { s with params := params }

/-- Embedding of `InitGenesis` (genesis.go lines 10-20): the params are set,
then every incentive of the genesis state is stored, in list order. -/
def InitGenesis (s : State) (data : GenesisState) : State :=
  data.Incentives.foldl (fun ctx incentive => SetIncentive ctx incentive)
    (SetParams s data.Params)

/-- Embedding of `ExportGenesis` (genesis.go lines 23-28). -/
def ExportGenesis (s : State) : GenesisState :=
  { Params := GetParams s, Incentives := GetAllIncentives s }

/-- The incentive listed last for a contract in a genesis list. -/
def lastListed (incs : List Incentive) (contract : Address) : Option Incentive :=
  incs.reverse.find? (fun inc => decide (inc.Contract = contract))

/-! ## Visiting orders of the registry -/

/-- The list `visited` holds the incentives of `stored` in some order, each
with its allocations in some order. -/
def Reordered (visited stored : List Incentive) : Prop :=
  ∃ mid : List Incentive, visited.Perm mid ∧
    List.Forall₂ (fun a b => a.Contract = b.Contract ∧ a.Allocations.Perm b.Allocations)
      mid stored

/-- Lines 56-94 of `RegisterIncentive` with the iterator visiting the list
`visited` instead of the store in key order. -/
def checkRegisteredVisiting (visited : List Incentive) (s : State)
    (allocations : DecCoins) : Option Err :=
  if (GetAllIncentives s).length ≠ 0 then
    checkAllocationSums (iterateList sumCallback visited DecMap.empty) allocations
  else none

/-- The function `RegisterIncentive` with the iterator of lines 62-77 visiting
the list `visited`; everything else as in `RegisterIncentive`. -/
def RegisterIncentiveVisiting (visited : List Incentive) (env : Env) (s : State)
    (contract : Address) (allocations : DecCoins) (epochs : Nat) : RegisterResult :=
  if (GetParams s).EnableIncentives = false then
    ⟨none, some .disabled, s⟩
  else if IsIncentiveRegistered s contract then
    ⟨none, some (.alreadyRegistered contract), s⟩
  else
    match checkAllocations env (GetParams s) allocations with
    | some e => ⟨none, some e, s⟩
    | none =>
      match checkRegisteredVisiting visited s allocations with
      | some e => ⟨none, some e, s⟩
      | none =>
        ⟨some (NewIncentive contract allocations epochs), none,
          SetIncentive s (NewIncentive contract allocations epochs)⟩

/-- The state `stateA` in which contract `1` also holds the allocation
`(aevmos, 0)`. -/
def stateAZero : State :=
  { stateA with
    incentives := [{ Contract := 1
                     Allocations := [⟨"acoin", ⟨6 * 10 ^ 17⟩⟩, ⟨"aevmos", ⟨0⟩⟩]
                     Epochs := 10, TotalGas := 0 }] }

/-- Enabled module with ceiling `1.0` and two incentives, contracts `1` and `3`. -/
def stateTwo : State :=
  { params := { EnableIncentives := true, AllocationLimit := ⟨10 ^ 18⟩ }
    incentives :=
      [{ Contract := 1, Allocations := [⟨"acoin", ⟨6 * 10 ^ 17⟩⟩, ⟨"bcoin", ⟨10 ^ 17⟩⟩],
         Epochs := 10, TotalGas := 0 },
       { Contract := 3, Allocations := [⟨"acoin", ⟨2 * 10 ^ 17⟩⟩], Epochs := 5, TotalGas := 0 }]
    gasMeters := [] }

/-- The incentives of `stateTwo` visited in the opposite order, the allocations
of contract `1` swapped. -/
def visitedTwo : List Incentive :=
  [{ Contract := 3, Allocations := [⟨"acoin", ⟨2 * 10 ^ 17⟩⟩], Epochs := 5, TotalGas := 0 },
   { Contract := 1, Allocations := [⟨"bcoin", ⟨10 ^ 17⟩⟩, ⟨"acoin", ⟨6 * 10 ^ 17⟩⟩],
     Epochs := 10, TotalGas := 0 }]

/-! ## Decimal arithmetic of the payout (cosmos-sdk `types/decimal.go`) -/

namespace Dec

/-- The constant `precisionReuse`, `10^18`. -/
def precisionReuse : Int := 10 ^ Precision

/-- Function `chopPrecisionAndTruncate`: the quotient by `10^18`, truncated
toward zero. -/
def chopPrecisionAndTruncate (x : Int) : Int := Int.tdiv x precisionReuse

/-- Constructor `sdk.NewDecFromInt`: the decimal of an integer. -/
def NewDecFromInt (n : Int) : Dec := ⟨n * precisionReuse⟩

/-- Multiplication `d.MulTruncate(d2)`: the product of the wrapped integers,
chopped by `10^18` with truncation. (The 315 bit overflow panic is not
modelled.) -/
def MulTruncate (d d2 : Dec) : Dec := ⟨chopPrecisionAndTruncate (d.i * d2.i)⟩

/-- Division `d.QuoTruncate(d2)`: the wrapped integer times `10^36`, divided
by the other with truncation (`big.Int.Quo`), chopped by `10^18` with
truncation. The library panics on a zero divisor; the distribution only
divides by a total that it has tested to be nonzero. -/
def QuoTruncate (d d2 : Dec) : Dec :=
  ⟨chopPrecisionAndTruncate (Int.tdiv (d.i * precisionReuse * precisionReuse) d2.i)⟩

/-- Method `d.TruncateInt()`: the integer part, truncated toward zero. -/
def TruncateInt (d : Dec) : Int := chopPrecisionAndTruncate d.i

end Dec

/-! ## Distribution (section 4.3 of the spec) -/

/-- Modelled from the spec: the external ledger of sections 3 and 6, as far as
the distribution uses it: the balance of the pooled account per denomination
(`BalanceOracle.getBalance`) and the balances of the participants. -/
structure Bank where
  pool : String → Int
  accounts : Address → String → Int

/-- Modelled from the spec: `TransferService.transfer` from the pooled account
to a participant (section 6). The amount moves from the pool to the
participant; the transfer fails, changing nothing, when the amount is negative
or exceeds the pooled balance. -/
def Bank.transfer (b : Bank) (participant : Address) (denom : String) (amount : Int) :
    Option Bank :=
  if amount < 0 ∨ b.pool denom < amount then none
  else some
    { pool := fun d => if d = denom then b.pool d - amount else b.pool d
      accounts := fun a d =>
        if a = participant ∧ d = denom then b.accounts a d + amount else b.accounts a d }

/-- Error of the distribution: the `TransferFailure` of section 7. -/
inductive DistErr where
  | transferFailure (participant : Address) (denom : String) (amount : Int)
deriving DecidableEq

/-- Modelled from the spec: the iteration of the usage ledger by contract
(section 4.1), `Keeper.IterateIncentiveGasMeters`, not among the sources: the
meters of the contract in the order of the store. -/
def GetIncentiveGasMeters (s : State) (contract : Address) : List GasMeter :=
  s.gasMeters.filter (fun gm => decide (gm.Contract = contract))

/-- Modelled from the spec: `Keeper.GetIncentiveGasMeter` (not among the
sources, called by the test): the usage of a participant under a contract,
found or not found. -/
def GetIncentiveGasMeter (s : State) (contract participant : Address) : Option Nat :=
  (s.gasMeters.find?
    (fun gm => decide (gm.Contract = contract ∧ gm.Participant = participant))).map
    (fun gm => gm.CumulativeGas)

/-- Modelled from the spec: `deleteAllForContract` of section 4.1: removes
every meter of the contract in one step. -/
def DeleteGasMeters (s : State) (contract : Address) : State :=
  { s with gasMeters := s.gasMeters.filter (fun gm => !decide (gm.Contract = contract)) }

/-- Modelled from the spec: the reward pool of one allocation (section 4.3,
step 2): `rewardPool = balance * rate`, a decimal. -/
def rewardPool (balance : Int) (rate : Dec) : Dec :=
  (Dec.NewDecFromInt balance).MulTruncate rate

/-- Modelled from the spec: the share of one participant (section 4.3, step 2):
`share = rewardPool * (participantUsage / incentiveTotalUsage)` in fixed-point
decimal arithmetic, truncated toward zero. The arithmetic is that of the
decimal type of the sources, `sdk.Dec` with 18 places; in the words of the
spec the result is truncated and truncation keeps the payouts of a cycle
within `floor(balance * rate)`, so the quotient and the product are the
truncating ones and no step rounds up. -/
def participantShare (pool : Dec) (totalGas : Nat) (gm : GasMeter) : Int :=
  (pool.MulTruncate
    ((Dec.NewDecFromInt gm.CumulativeGas).QuoTruncate (Dec.NewDecFromInt totalGas))).TruncateInt

/-- Sum of the shares of the meters of one participant in a list of meters. -/
def sharesOf (pool : Dec) (totalGas : Nat) (participant : Address) : List GasMeter → Int
  | [] => 0
  | gm :: rest =>
    (if gm.Participant = participant then participantShare pool totalGas gm else 0) +
      sharesOf pool totalGas participant rest

/-- Sum of the shares of all meters of a list: the payouts of one allocation. -/
def payoutsOf (pool : Dec) (totalGas : Nat) (ms : List GasMeter) : Int :=
  (ms.map (fun gm => participantShare pool totalGas gm)).sum

/-- Sum of the usage of all meters of a list. -/
def usageOf (ms : List GasMeter) : Nat :=
  (ms.map (fun gm => gm.CumulativeGas)).sum

/-- Modelled from the spec: the loop over the usage meters of the contract
(section 4.3, step 2): a nonzero share is transferred, a zero share performs
no transfer, a failed transfer aborts. -/
def payMeters (denom : String) (pool : Dec) (totalGas : Nat) :
    List GasMeter → Bank → Option DistErr × Bank
  | [], b => (none, b)
  | gm :: rest, b =>
    if participantShare pool totalGas gm = 0 then
      payMeters denom pool totalGas rest b
    else
      match b.transfer gm.Participant denom (participantShare pool totalGas gm) with
      | none =>
        (some (.transferFailure gm.Participant denom (participantShare pool totalGas gm)), b)
      | some b2 => payMeters denom pool totalGas rest b2

/-- Modelled from the spec: the loop over the allocations of the incentive
(section 4.3, step 2): the pooled balance of the denomination is read,
`rewardPool = balance * rate`, and the meters are paid. -/
def payAllocations (meters : List GasMeter) (totalGas : Nat) :
    DecCoins → Bank → Option DistErr × Bank
  | [], b => (none, b)
  | al :: rest, b =>
    match payMeters al.Denom (rewardPool (b.pool al.Denom) al.Amount) totalGas meters b with
    | (some e, b2) => (some e, b2)
    | (none, b2) => payAllocations meters totalGas rest b2

/-- Modelled from the spec: step 4 of section 4.3. The remaining epochs are
decremented; at zero the incentive is deleted, otherwise it is stored with the
new epochs and usage zero. -/
def finishEpoch (incentive : Incentive) (s : State) : State :=
  if incentive.Epochs - 1 = 0 then DeleteIncentive s incentive
  else SetIncentive s { incentive with Epochs := incentive.Epochs - 1, TotalGas := 0 }

/-- Result of the distribution: the error, the module state and the ledger. -/
structure DistributeResult where
  err : Option DistErr
  state : State
  bank : Bank

/-- Modelled from the spec: the processing of one incentive (section 4.3,
steps 1 to 4). With usage zero the payout and step 3 are skipped and step 4
runs; otherwise every allocation is paid, the meters of the contract are
deleted and step 4 runs. A failed transfer aborts with the module state as it
was. -/
def distributeIncentive (incentive : Incentive) (s : State) (b : Bank) : DistributeResult :=
  if incentive.TotalGas = 0 then
    ⟨none, finishEpoch incentive s, b⟩
  else
    match payAllocations (GetIncentiveGasMeters s incentive.Contract) incentive.TotalGas
        incentive.Allocations b with
    | (some e, b2) => ⟨some e, s, b2⟩
    | (none, b2) => ⟨none, finishEpoch incentive (DeleteGasMeters s incentive.Contract), b2⟩

/-- The callback of the distribution: processes the visited incentive on the
state reached so far and stops the iteration on an error. -/
def distributeCallback : DistributeResult → Incentive → DistributeResult × Bool :=
  fun acc incentive =>
    (distributeIncentive incentive acc.state acc.bank,
      (distributeIncentive incentive acc.state acc.bank).err.isSome)

/-- Modelled from the spec: `Keeper.DistributeIncentives` (keeper/distribution.go
is not among the sources, only its test is). Section 4.3: every incentive of
the registry is processed in key order; a transfer failure aborts the call and
keeps what the incentives processed before have changed. -/
def DistributeIncentives (s : State) (b : Bank) : DistributeResult :=
  IterateIncentives s distributeCallback ⟨none, s, b⟩

/-- State and ledger of the distribution when the iteration has visited the
incentives `pre`, which come before an incentive in key order: what the engine
sees when it reaches that incentive. -/
def reached (s : State) (b : Bank) (pre : List Incentive) : DistributeResult :=
  iterateList distributeCallback pre ⟨none, s, b⟩

/-- Result of processing the incentive that follows `pre` in key order. -/
def processed (s : State) (b : Bank) (pre : List Incentive) (incentive : Incentive) :
    DistributeResult :=
  distributeIncentive incentive (reached s b pre).state (reached s b pre).bank

/-- The pooled balance of a denomination that the engine reads when it reaches
the incentive that follows `pre`. -/
def balanceRead (s : State) (b : Bank) (pre : List Incentive) (denom : String) : Int :=
  (reached s b pre).bank.pool denom

/-- The usage meters of the contract that the engine iterates when it reaches
the incentive that follows `pre`. -/
def metersRead (s : State) (b : Bank) (pre : List Incentive) (incentive : Incentive) :
    List GasMeter :=
  GetIncentiveGasMeters (reached s b pre).state incentive.Contract

/-- The scenario of `TestDistributeIncentives` with the numbers of the spec:
one incentive of contract `2` with rate `0.2` on `acoin` for `epochs` epochs
and total gas `1000`, participant `77` with gas `500`. -/
def stateTest (epochs : Nat) : State :=
  { params := { EnableIncentives := true, AllocationLimit := ⟨10 ^ 18⟩ }
    incentives := [{ Contract := 2, Allocations := [⟨"acoin", ⟨2 * 10 ^ 17⟩⟩],
                     Epochs := epochs, TotalGas := 1000 }]
    gasMeters := [{ Contract := 2, Participant := 77, CumulativeGas := 500 }] }

/-- Ledger with `balance` units of `acoin` in the pooled account and nothing
else. -/
def bankOf (balance : Int) : Bank :=
  { pool := fun d => if d = "acoin" then balance else 0
    accounts := fun _ _ => 0 }

/-- One incentive of contract `1` with rate `0.5` on `acoin`, total gas `6`,
and three participants with gas `1`, `1` and `4`. -/
def stateSixths : State :=
  { params := { EnableIncentives := true, AllocationLimit := ⟨10 ^ 18⟩ }
    incentives := [{ Contract := 1, Allocations := [⟨"acoin", ⟨5 * 10 ^ 17⟩⟩],
                     Epochs := 2, TotalGas := 6 }]
    gasMeters := [{ Contract := 1, Participant := 11, CumulativeGas := 1 },
                  { Contract := 1, Participant := 12, CumulativeGas := 1 },
                  { Contract := 1, Participant := 13, CumulativeGas := 4 }] }

/-- One incentive of contract `1` with two epochs left and usage zero, and a
meter of participant `77` under that contract. -/
def stateIdle : State :=
  { params := { EnableIncentives := true, AllocationLimit := ⟨10 ^ 18⟩ }
    incentives := [{ Contract := 1, Allocations := [⟨"acoin", ⟨6 * 10 ^ 17⟩⟩],
                     Epochs := 2, TotalGas := 0 }]
    gasMeters := [{ Contract := 1, Participant := 77, CumulativeGas := 500 }] }

/-- One incentive of contract `1` with rate `0.5` on `acoin` and total gas
`1000`, and two participants whose meters hold `1000` each, more than the
total. -/
def stateOver : State :=
  { params := { EnableIncentives := true, AllocationLimit := ⟨10 ^ 18⟩ }
    incentives := [{ Contract := 1, Allocations := [⟨"acoin", ⟨5 * 10 ^ 17⟩⟩],
                     Epochs := 2, TotalGas := 1000 }]
    gasMeters := [{ Contract := 1, Participant := 11, CumulativeGas := 1000 },
                  { Contract := 1, Participant := 12, CumulativeGas := 1000 }] }

/-- One incentive of contract `1` that lists `acoin` twice, each time with rate
`0.5`, total gas `1000`, and one participant with gas `1000`. -/
def stateDouble : State :=
  { params := { EnableIncentives := true, AllocationLimit := ⟨10 ^ 18⟩ }
    incentives := [{ Contract := 1
                     Allocations := [⟨"acoin", ⟨5 * 10 ^ 17⟩⟩, ⟨"acoin", ⟨5 * 10 ^ 17⟩⟩]
                     Epochs := 2, TotalGas := 1000 }]
    gasMeters := [{ Contract := 1, Participant := 11, CumulativeGas := 1000 }] }

/-- Two incentives, contracts `1` and `2`, each with rate `0.5` on `acoin` and
total gas `1000`, each with one participant holding all of the gas. -/
def stateShared : State :=
  { params := { EnableIncentives := true, AllocationLimit := ⟨10 ^ 18⟩ }
    incentives := [{ Contract := 1, Allocations := [⟨"acoin", ⟨5 * 10 ^ 17⟩⟩],
                     Epochs := 2, TotalGas := 1000 },
                   { Contract := 2, Allocations := [⟨"acoin", ⟨5 * 10 ^ 17⟩⟩],
                     Epochs := 2, TotalGas := 1000 }]
    gasMeters := [{ Contract := 1, Participant := 11, CumulativeGas := 1000 },
                  { Contract := 2, Participant := 12, CumulativeGas := 1000 }] }

/-! ## The size of a serialised decimal -/

theorem toDigitsCore_length_ge (fuel : Nat) : ∀ (n : Nat) (ds : List Char),
    ds.length ≤ (Nat.toDigitsCore 10 fuel n ds).length := by
  induction fuel with
  | zero => intro n ds; simp [Nat.toDigitsCore]
  | succ f ih =>
    intro n ds
    rw [Nat.toDigitsCore]
    by_cases h : n / 10 = 0
    · simp [h]
    · simp only [h, if_false]
      have := ih (n / 10) (Nat.digitChar (n % 10) :: ds)
      simp only [List.length_cons] at this
      omega

theorem toDigitsCore_length_gt (f n : Nat) (ds : List Char) :
    ds.length + 1 ≤ (Nat.toDigitsCore 10 (f + 1) n ds).length := by
  rw [Nat.toDigitsCore]
  by_cases h : n / 10 = 0
  · simp [h]
  · simp only [h, if_false]
    have := toDigitsCore_length_ge f (n / 10) (Nat.digitChar (n % 10) :: ds)
    simpa using this

theorem repr_length_pos (n : Nat) : 1 ≤ (Nat.repr n).length := by
  have := toDigitsCore_length_gt n n []
  simpa [Nat.repr, Nat.toDigits] using this

theorem repr_length_gt_one_iff (n : Nat) : 1 < (Nat.repr n).length ↔ 10 ≤ n := by
  constructor
  · intro h
    by_contra hc
    have := Nat.repr_length n 1 (by norm_num) (by omega)
    omega
  · intro h
    obtain ⟨f, rfl⟩ : ∃ f, n = f + 1 := ⟨n - 1, by omega⟩
    have h0 : ¬ (f + 1) / 10 = 0 := by omega
    have := toDigitsCore_length_gt f ((f + 1) / 10) [Nat.digitChar ((f + 1) % 10)]
    simp only [Nat.repr, Nat.toDigits, List.length_asString]
    rw [Nat.toDigitsCore]
    simp only [h0, if_false]
    simpa using this

theorem bigIntMarshalText_length (x : Int) :
    (bigIntMarshalText x).length = (if x < 0 then 1 else 0) + (Nat.repr x.natAbs).length := by
  unfold bigIntMarshalText
  by_cases h : x < 0
  · simp only [h, if_true, String.length_append]
    rfl
  · simp [h]

theorem Dec.Size_ne_zero (d : Dec) : d.Size ≠ 0 := by
  have h1 := bigIntMarshalText_length d.i
  have h2 := repr_length_pos d.i.natAbs
  unfold Dec.Size Dec.Marshal
  omega

theorem Dec.Size_gt_one_iff (d : Dec) : d.Size > 1 ↔ (d.i < 0 ∨ 10 ≤ d.i) := by
  have h1 := bigIntMarshalText_length d.i
  have h2 := repr_length_pos d.i.natAbs
  have h3 := repr_length_gt_one_iff d.i.natAbs
  unfold Dec.Size Dec.Marshal
  by_cases h : d.i < 0
  · simp only [h, if_true] at h1
    simp only [h, true_or, iff_true]
    omega
  · simp only [h, if_false, Nat.zero_add] at h1
    rw [h1]
    simp only [h, false_or, gt_iff_lt]
    rw [h3]
    omega

/-! ## Lemmas on the store -/

theorem find_upsert_self (inc : Incentive) (l : List Incentive) :
    (upsert inc l).find? (fun x => decide (x.Contract = inc.Contract)) = some inc := by
  induction l with
  | nil => simp [upsert]
  | cons x rest ih =>
    unfold upsert
    by_cases h1 : inc.Contract < x.Contract
    · simp [h1]
    · by_cases h2 : inc.Contract = x.Contract
      · simp [h1, h2]
      · have h3 : decide (x.Contract = inc.Contract) = false :=
          decide_eq_false (fun h => h2 h.symm)
        simp only [h1, h2, if_false, List.find?_cons, h3, ih]

theorem find_upsert_other (inc : Incentive) (l : List Incentive) (c : Address)
    (hc : c ≠ inc.Contract) :
    (upsert inc l).find? (fun x => decide (x.Contract = c)) =
      l.find? (fun x => decide (x.Contract = c)) := by
  have hc2 : decide (inc.Contract = c) = false := decide_eq_false (fun h => hc h.symm)
  induction l with
  | nil => simp only [upsert, List.find?_cons, hc2]
  | cons x rest ih =>
    unfold upsert
    by_cases h1 : inc.Contract < x.Contract
    · simp only [h1, if_true, List.find?_cons, hc2]
    · by_cases h2 : inc.Contract = x.Contract
      · have h3 : decide (x.Contract = c) = false :=
          decide_eq_false (fun h => hc (h2.trans h).symm)
        rw [if_neg h1, if_pos h2]
        simp only [List.find?_cons, h3, hc2]
      · simp only [h1, h2, if_false, List.find?_cons, ih]

theorem find_filter_self (l : List Incentive) (c : Address) :
    (l.filter (fun x => !decide (x.Contract = c))).find? (fun x => decide (x.Contract = c))
      = none := by
  rw [List.find?_eq_none]
  intro x hx
  have h := (List.mem_filter.mp hx).2
  simpa using h

theorem find_filter_other (l : List Incentive) (c c2 : Address) (h : c2 ≠ c) :
    (l.filter (fun x => !decide (x.Contract = c))).find? (fun x => decide (x.Contract = c2))
      = l.find? (fun x => decide (x.Contract = c2)) := by
  induction l with
  | nil => rfl
  | cons x rest ih =>
    by_cases h1 : x.Contract = c
    · have hb1 : decide (x.Contract = c) = true := decide_eq_true h1
      have hb2 : decide (x.Contract = c2) = false :=
        decide_eq_false (fun h3 => h (h3.symm.trans h1))
      simp only [List.filter_cons, hb1, Bool.not_true, List.find?_cons, hb2]
      exact ih
    · have hb1 : decide (x.Contract = c) = false := decide_eq_false h1
      simp only [List.filter_cons, hb1, Bool.not_false, if_true, List.find?_cons, ih]

theorem find_some_contract (l : List Incentive) (c : Address) (inc : Incentive)
    (h : l.find? (fun x => decide (x.Contract = c)) = some inc) : inc.Contract = c := by
  have := List.find?_some h
  simpa using this

/-! ## Lemmas on the accumulation of `currentAllocations` -/

theorem DecMap.set_apply (m : DecMap) (k : String) (v : Dec) (d : String) :
    (m.set k v) d = if d = k then some v else m d := rfl

theorem denomSum_cons_i (d : String) (al : DecCoin) (rest : DecCoins) :
    (denomSum d (al :: rest)).i = (if al.Denom = d then al.Amount.i else 0) + (denomSum d rest).i := by
  rw [denomSum]
  by_cases h : al.Denom = d
  · simp [h, Dec.Add]
  · simp [h]

theorem mentions_cons (d : String) (al : DecCoin) (rest : DecCoins) :
    mentions d (al :: rest) = (decide (al.Denom = d) || mentions d rest) := by
  simp [mentions]

/-- Step of `addAllocations`: no allocation is skipped, since `Size` is never zero. -/
theorem addAllocations_cons (m : DecMap) (al : DecCoin) (rest : DecCoins) :
    addAllocations m (al :: rest) =
      addAllocations (m.set al.Denom ⟨DecMap.val m al.Denom + al.Amount.i⟩) rest := by
  rw [addAllocations]
  rw [if_neg (Dec.Size_ne_zero al.Amount)]
  unfold DecMap.val
  cases h : m al.Denom with
  | none => simp
  | some cur => simp [Dec.Add]

theorem addAllocations_isSome (m : DecMap) (als : DecCoins) (d : String) :
    (addAllocations m als d).isSome = ((m d).isSome || mentions d als) := by
  induction als generalizing m with
  | nil => simp [addAllocations, mentions]
  | cons al rest ih =>
    rw [addAllocations_cons, ih, mentions_cons, DecMap.set_apply]
    by_cases h : d = al.Denom
    · subst h; simp
    · have h2 : ¬ al.Denom = d := fun e => h e.symm
      simp [h, h2]

theorem addAllocations_val (m : DecMap) (als : DecCoins) (d : String) :
    DecMap.val (addAllocations m als) d = DecMap.val m d + (denomSum d als).i := by
  induction als generalizing m with
  | nil => simp [addAllocations, denomSum, Dec.ZeroDec]
  | cons al rest ih =>
    rw [addAllocations_cons, ih, denomSum_cons_i]
    by_cases h : d = al.Denom
    · subst h
      simp [DecMap.val, DecMap.set_apply]
      ring
    · have h2 : ¬ al.Denom = d := fun e => h e.symm
      simp [DecMap.val, DecMap.set_apply, h, h2]

theorem iterate_isSome (m : DecMap) (incs : List Incentive) (d : String) :
    (iterateList sumCallback incs m d).isSome = ((m d).isSome || registryMentions d incs) := by
  induction incs generalizing m with
  | nil => simp [iterateList, registryMentions]
  | cons inc rest ih =>
    simp only [iterateList, sumCallback, Bool.false_eq_true, if_false]
    have := ih (addAllocations m inc.Allocations)
    simp only [sumCallback] at this
    rw [this, addAllocations_isSome]
    simp [registryMentions, Bool.or_assoc]

theorem iterate_val (m : DecMap) (incs : List Incentive) (d : String) :
    DecMap.val (iterateList sumCallback incs m) d = DecMap.val m d + (registryTotal d incs).i := by
  induction incs generalizing m with
  | nil => simp [iterateList, registryTotal, Dec.ZeroDec]
  | cons inc rest ih =>
    simp only [iterateList, sumCallback, Bool.false_eq_true, if_false]
    have := ih (addAllocations m inc.Allocations)
    simp only [sumCallback] at this
    rw [this, addAllocations_val]
    simp [registryTotal, Dec.Add]
    ring

/-- The map built by lines 60-77: the total of every denomination that some
registered incentive names, no entry for the others. -/
theorem currentAllocations_eq (s : State) (d : String) :
    IterateIncentives s sumCallback DecMap.empty d =
      if registryMentions d s.incentives then some (registryTotal d s.incentives) else none := by
  have h1 := iterate_isSome DecMap.empty s.incentives d
  have h2 := iterate_val DecMap.empty s.incentives d
  unfold IterateIncentives
  cases h : iterateList sumCallback s.incentives DecMap.empty d with
  | none =>
    rw [h] at h1
    simp [DecMap.empty] at h1
    simp [h1]
  | some v =>
    rw [h] at h1
    simp [DecMap.empty] at h1
    simp only [DecMap.val, h, DecMap.empty, zero_add] at h2
    simp only [h1, if_true]
    congr 1
    cases v
    cases hv : registryTotal d s.incentives
    simp_all

/-! ## Lemmas on the checks of `RegisterIncentive` -/

theorem checkAllocations_of_supply (env : Env) (p : Params) (als : DecCoins)
    (hsup : ∀ al ∈ als, al.Denom ≠ env.MintDenom → env.HasSupply al.Denom = true) :
    checkAllocations env p als =
      (als.find? (fun al => al.Amount.GT p.AllocationLimit)).map
        (fun al => Err.aboveLimit al.Denom al.Amount p.AllocationLimit) := by
  induction als with
  | nil => rfl
  | cons al rest ih =>
    have h1 : ¬ (al.Denom ≠ env.MintDenom ∧ env.HasSupply al.Denom = false) := by
      intro h
      have := hsup al (List.mem_cons_self _ _) h.1
      rw [this] at h
      exact Bool.noConfusion h.2
    have ih2 := ih (fun x hx => hsup x (List.mem_cons_of_mem _ hx))
    rw [checkAllocations, if_neg h1, List.find?_cons]
    cases hgt : al.Amount.GT p.AllocationLimit with
    | true => simp
    | false => simpa using ih2

theorem checkAllocations_unknown_first (env : Env) (p : Params) (pre : DecCoins) (al : DecCoin)
    (post : DecCoins) (hal : env.unknownDenom al = true)
    (hpre : ∀ x ∈ pre, env.unknownDenom x = false) :
    checkAllocations env p (pre ++ al :: post) =
      match pre.find? (fun x => x.Amount.GT p.AllocationLimit) with
      | some x => some (Err.aboveLimit x.Denom x.Amount p.AllocationLimit)
      | none => some (Err.zeroSupply al.Denom) := by
  induction pre with
  | nil =>
    have h1 : al.Denom ≠ env.MintDenom ∧ env.HasSupply al.Denom = false := by
      simpa [Env.unknownDenom] using hal
    simp only [List.nil_append, List.find?_nil]
    rw [checkAllocations, if_pos h1]
  | cons x rest ih =>
    have hx : ¬ (x.Denom ≠ env.MintDenom ∧ env.HasSupply x.Denom = false) := by
      have := hpre x (List.mem_cons_self _ _)
      intro h
      simp [Env.unknownDenom, h.1, h.2] at this
    have ih2 := ih (fun y hy => hpre y (List.mem_cons_of_mem _ hy))
    rw [List.cons_append, checkAllocations, if_neg hx, List.find?_cons]
    cases hgt : x.Amount.GT p.AllocationLimit with
    | true => simp
    | false => simpa using ih2

theorem checkAllocationSums_eq_none_iff (m : DecMap) (als : DecCoins) :
    checkAllocationSums m als = none ↔
      ∀ al ∈ als, ∀ cur, m al.Denom = some cur → ¬ (al.Amount.Add cur).Size > 1 := by
  induction als with
  | nil => simp [checkAllocationSums]
  | cons al rest ih =>
    rw [checkAllocationSums]
    cases hm : m al.Denom with
    | none =>
      simp only []
      rw [ih]
      constructor
      · intro h x hx c hc
        rcases List.mem_cons.mp hx with rfl | hx2
        · rw [hm] at hc; cases hc
        · exact h x hx2 c hc
      · intro h x hx
        exact h x (List.mem_cons_of_mem _ hx)
    | some cur =>
      simp only []
      by_cases hs : (al.Amount.Add cur).Size > 1
      · rw [if_pos hs]
        constructor
        · intro h; cases h
        · intro h; exact absurd hs (h al (List.mem_cons_self _ _) cur hm)
      · rw [if_neg hs, ih]
        constructor
        · intro h x hx c hc
          rcases List.mem_cons.mp hx with rfl | hx2
          · rw [hm] at hc; cases hc; exact hs
          · exact h x hx2 c hc
        · intro h x hx
          exact h x (List.mem_cons_of_mem _ hx)

theorem checkAllocationSums_some (m : DecMap) (als : DecCoins) (e : Err)
    (h : checkAllocationSums m als = some e) :
    ∃ al ∈ als, ∃ cur, m al.Denom = some cur ∧ (al.Amount.Add cur).Size > 1 ∧
      e = Err.overAllocated al.Denom (al.Amount.Add cur) := by
  induction als with
  | nil => simp [checkAllocationSums] at h
  | cons al rest ih =>
    rw [checkAllocationSums] at h
    cases hm : m al.Denom with
    | none =>
      rw [hm] at h
      obtain ⟨x, hx, cur, h1, h2, h3⟩ := ih h
      exact ⟨x, List.mem_cons_of_mem _ hx, cur, h1, h2, h3⟩
    | some cur =>
      rw [hm] at h
      by_cases hs : (al.Amount.Add cur).Size > 1
      · simp only [hs, if_true, Option.some.injEq] at h
        exact ⟨al, List.mem_cons_self _ _, cur, hm, hs, h.symm⟩
      · simp only [hs, if_false] at h
        obtain ⟨x, hx, cur2, h1, h2, h3⟩ := ih h
        exact ⟨x, List.mem_cons_of_mem _ hx, cur2, h1, h2, h3⟩

theorem registryMentions_nil_of_length (incs : List Incentive) (h : ¬ incs.length ≠ 0)
    (d : String) : registryMentions d incs = false := by
  have : incs = [] := by
    cases incs with
    | nil => rfl
    | cons x r => simp at h
  subst this
  rfl

/-- The check of lines 56-94 against the registry totals. -/
theorem checkRegistered_eq (s : State) (als : DecCoins) :
    checkRegistered s als =
      checkAllocationSums
        (fun d => if registryMentions d s.incentives then some (registryTotal d s.incentives)
          else none) als := by
  unfold checkRegistered GetAllIncentives
  have hmap : IterateIncentives s sumCallback DecMap.empty =
      (fun d => if registryMentions d s.incentives then some (registryTotal d s.incentives)
          else none) := by
    funext d
    exact currentAllocations_eq s d
  by_cases h : s.incentives.length ≠ 0
  · rw [if_pos h, hmap]
  · rw [if_neg h]
    symm
    rw [checkAllocationSums_eq_none_iff]
    intro al _ cur hcur
    simp [registryMentions_nil_of_length s.incentives h] at hcur

theorem denomSum_of_not_mentions (d : String) (als : DecCoins) (h : mentions d als = false) :
    (denomSum d als).i = 0 := by
  induction als with
  | nil => rfl
  | cons al rest ih =>
    rw [mentions_cons] at h
    simp only [Bool.or_eq_false_iff, decide_eq_false_iff_not] at h
    rw [denomSum_cons_i, if_neg h.1, ih h.2]
    rfl

theorem registryTotal_cons_i (d : String) (inc : Incentive) (rest : List Incentive) :
    (registryTotal d (inc :: rest)).i =
      (denomSum d inc.Allocations).i + (registryTotal d rest).i := by
  rw [registryTotal]
  rfl

theorem registryTotal_of_not_mentions (d : String) (incs : List Incentive)
    (h : registryMentions d incs = false) : (registryTotal d incs).i = 0 := by
  induction incs with
  | nil => rfl
  | cons inc rest ih =>
    simp only [registryMentions, List.any_cons, Bool.or_eq_false_iff] at h
    have h2 : registryMentions d rest = false := h.2
    rw [registryTotal_cons_i, denomSum_of_not_mentions d _ h.1, ih h2]
    rfl

/-- The first guard: the enabled flag. -/
theorem RegisterIncentive_of_disabled (env : Env) (s : State) (contract : Address)
    (allocations : DecCoins) (epochs : Nat)
    (hdis : s.params.EnableIncentives = false) :
    RegisterIncentive env s contract allocations epochs = ⟨none, some .disabled, s⟩ := by
  unfold RegisterIncentive
  simp [GetParams, hdis]

/-- The second guard: the contract must not be registered. -/
theorem RegisterIncentive_of_registered (env : Env) (s : State) (contract : Address)
    (allocations : DecCoins) (epochs : Nat)
    (hen : s.params.EnableIncentives = true)
    (hreg : IsIncentiveRegistered s contract = true) :
    RegisterIncentive env s contract allocations epochs =
      ⟨none, some (.alreadyRegistered contract), s⟩ := by
  unfold RegisterIncentive
  simp [GetParams, hen, hreg]

/-- Unfolding of `RegisterIncentive` once the first two guards have passed. -/
theorem RegisterIncentive_of_guards (env : Env) (s : State) (contract : Address)
    (allocations : DecCoins) (epochs : Nat)
    (hen : s.params.EnableIncentives = true) (hreg : GetIncentive s contract = none) :
    RegisterIncentive env s contract allocations epochs =
      match checkAllocations env s.params allocations with
      | some e => ⟨none, some e, s⟩
      | none =>
        match checkRegistered s allocations with
        | some e => ⟨none, some e, s⟩
        | none =>
          ⟨some (NewIncentive contract allocations epochs), none,
            SetIncentive s (NewIncentive contract allocations epochs)⟩ := by
  unfold RegisterIncentive
  simp [GetParams, hen, IsIncentiveRegistered, hreg]

/-- What a successful registration went through. -/
theorem RegisterIncentive_success (env : Env) (s : State) (contract : Address)
    (allocations : DecCoins) (epochs : Nat)
    (h : (RegisterIncentive env s contract allocations epochs).err = none) :
    s.params.EnableIncentives = true ∧ GetIncentive s contract = none ∧
      checkAllocations env s.params allocations = none ∧
      checkRegistered s allocations = none ∧
      RegisterIncentive env s contract allocations epochs =
        ⟨some (NewIncentive contract allocations epochs), none,
          SetIncentive s (NewIncentive contract allocations epochs)⟩ := by
  have hen : s.params.EnableIncentives = true := by
    by_contra hc
    have hc2 : (GetParams s).EnableIncentives = false := by simpa [GetParams] using hc
    simp [RegisterIncentive, hc2] at h
  have hreg : GetIncentive s contract = none := by
    by_contra hc
    have hc2 : IsIncentiveRegistered s contract = true := by
      cases hg : GetIncentive s contract with
      | none => exact absurd hg hc
      | some v => simp [IsIncentiveRegistered, hg]
    simp [RegisterIncentive, GetParams, hen, hc2] at h
  have hR := RegisterIncentive_of_guards env s contract allocations epochs hen hreg
  rw [hR] at h ⊢
  cases h1 : checkAllocations env s.params allocations with
  | some e => rw [h1] at h; simp at h
  | none =>
    cases h2 : checkRegistered s allocations with
    | some e => rw [h1, h2] at h; simp at h
    | none => exact ⟨hen, hreg, rfl, rfl, rfl⟩

/-! ## Registration -/

/-- C1: the code rejects a request that keeps every per-denomination total at
or below `1.0`. With contract `1` registered at rate `0.6` on `acoin`, all
preconditions of the claim hold for contract `2` at rate `0.3` on `acoin`
(the total would be `0.9`), yet `RegisterIncentive` returns the over-allocated
error and leaves the state as it was: `allocationSum.Size() > 1` tests the
length of the serialised sum, which is 18 bytes. -/
theorem RegisterIncentive_rejects_total_below_one :
    stateA.WF ∧ stateA.params.EnableIncentives = true ∧ GetIncentive stateA 2 = none ∧
      exampleEnv.HasSupply "acoin" = true ∧
      Dec.GT ⟨3 * 10 ^ 17⟩ stateA.params.AllocationLimit = false ∧
      (registryTotal "acoin" stateA.incentives).Add ⟨3 * 10 ^ 17⟩ = ⟨9 * 10 ^ 17⟩ ∧
      Dec.GT ⟨9 * 10 ^ 17⟩ Dec.OneDec = false ∧
      (Dec.Size ⟨9 * 10 ^ 17⟩ = 18) ∧
      RegisterIncentive exampleEnv stateA 2 [⟨"acoin", ⟨3 * 10 ^ 17⟩⟩] 10 =
        ⟨none, some (.overAllocated "acoin" ⟨9 * 10 ^ 17⟩), stateA⟩ := by
  decide

/-- C2: with incentives enabled, the contract not registered, supply for every
requested denomination other than the mint denomination, stored and requested
rates in `(0, 1]` and every requested rate within the ceiling, a request in
which the registered total of some denomination plus the requested rate exceeds
`1.0` fails with the over-allocated error, returns no incentive and leaves the
state unchanged. (The proof does not use the bound on the stored rates.) -/
theorem RegisterIncentive_over_allocated (env : Env) (s : State) (contract : Address)
    (allocations : DecCoins) (epochs : Nat)
    (hen : s.params.EnableIncentives = true)
    (hreg : GetIncentive s contract = none)
    (hsup : ∀ al ∈ allocations, al.Denom ≠ env.MintDenom → env.HasSupply al.Denom = true)
    (_hstored : ratesInUnit s.incentives)
    (hreq : ∀ al ∈ allocations, al.Amount.inUnit)
    (hlim : ∀ al ∈ allocations, al.Amount.GT s.params.AllocationLimit = false)
    (hover : ∃ al ∈ allocations,
      ((registryTotal al.Denom s.incentives).Add al.Amount).GT Dec.OneDec = true) :
    ∃ denom allocationSum,
      RegisterIncentive env s contract allocations epochs =
        ⟨none, some (.overAllocated denom allocationSum), s⟩ := by
  rw [RegisterIncentive_of_guards env s contract allocations epochs hen hreg]
  have h1 : checkAllocations env s.params allocations = none := by
    rw [checkAllocations_of_supply env s.params allocations hsup]
    have : allocations.find? (fun al => al.Amount.GT s.params.AllocationLimit) = none := by
      rw [List.find?_eq_none]
      intro x hx
      simp [hlim x hx]
    rw [this]
    rfl
  rw [h1]
  obtain ⟨al, hal, hgt⟩ := hover
  have hle := (hreq al hal).2
  simp only [Dec.GT, Dec.Add, decide_eq_true_eq] at hgt
  have hone : Dec.OneDec.i = 10 ^ 18 := rfl
  rw [hone] at hgt hle
  have hpos : (10 : Int) ^ 18 = 1000000000000000000 := by norm_num
  have hment : registryMentions al.Denom s.incentives = true := by
    by_contra hc
    have hc2 : registryMentions al.Denom s.incentives = false := by simpa using hc
    have := registryTotal_of_not_mentions _ _ hc2
    omega
  cases h2 : checkRegistered s allocations with
  | some e =>
    rw [checkRegistered_eq] at h2
    obtain ⟨x, _, cur, _, _, he⟩ := checkAllocationSums_some _ _ _ h2
    exact ⟨x.Denom, x.Amount.Add cur, by rw [he]⟩
  | none =>
    exfalso
    rw [checkRegistered_eq, checkAllocationSums_eq_none_iff] at h2
    have h3 := h2 al hal (registryTotal al.Denom s.incentives) (by simp [hment])
    rw [Dec.Size_gt_one_iff] at h3
    simp only [Dec.Add] at h3
    omega

/-- C2 at the example of the spec: `0.6` registered on `acoin`, a request of
`0.5` on `acoin` for another contract. -/
theorem RegisterIncentive_over_allocated_witness :
    ∃ denom allocationSum,
      RegisterIncentive exampleEnv stateA 2 [⟨"acoin", ⟨5 * 10 ^ 17⟩⟩] 10 =
        ⟨none, some (.overAllocated denom allocationSum), stateA⟩ :=
  RegisterIncentive_over_allocated exampleEnv stateA 2 [⟨"acoin", ⟨5 * 10 ^ 17⟩⟩] 10
    (by decide) (by decide) (by decide) (by decide) (by decide) (by decide) (by decide)

/-- C3: with incentives enabled, the contract not registered and supply for
every requested denomination other than the mint denomination, a request with
some rate strictly above the allocation limit fails with the rate-too-high
error, reported for the first such allocation, whatever the registry holds;
no incentive is returned and the state is unchanged. -/
theorem RegisterIncentive_rate_too_high (env : Env) (s : State) (contract : Address)
    (allocations : DecCoins) (epochs : Nat)
    (hen : s.params.EnableIncentives = true)
    (hreg : GetIncentive s contract = none)
    (hsup : ∀ al ∈ allocations, al.Denom ≠ env.MintDenom → env.HasSupply al.Denom = true)
    (hhigh : ∃ al ∈ allocations, al.Amount.GT s.params.AllocationLimit = true) :
    ∃ al ∈ allocations, al.Amount.GT s.params.AllocationLimit = true ∧
      allocations.find? (fun x => x.Amount.GT s.params.AllocationLimit) = some al ∧
      RegisterIncentive env s contract allocations epochs =
        ⟨none, some (.aboveLimit al.Denom al.Amount s.params.AllocationLimit), s⟩ := by
  rw [RegisterIncentive_of_guards env s contract allocations epochs hen hreg]
  rw [checkAllocations_of_supply env s.params allocations hsup]
  cases hf : allocations.find? (fun x => x.Amount.GT s.params.AllocationLimit) with
  | none =>
    exfalso
    obtain ⟨al, hal, hgt⟩ := hhigh
    rw [List.find?_eq_none] at hf
    exact hf al hal hgt
  | some al =>
    exact ⟨al, List.mem_of_find?_eq_some hf, by simpa using List.find?_some hf, rfl, rfl⟩

/-- C3 on a registry that already holds `0.6` on `acoin`: a request of `1.5`
on `acoin` (above the ceiling `1.0`, and above `1.0` in total) is refused for
its rate. -/
theorem RegisterIncentive_rate_too_high_witness :
    ∃ al ∈ [(⟨"acoin", ⟨15 * 10 ^ 17⟩⟩ : DecCoin)],
      al.Amount.GT stateA.params.AllocationLimit = true ∧
      [(⟨"acoin", ⟨15 * 10 ^ 17⟩⟩ : DecCoin)].find?
        (fun x => x.Amount.GT stateA.params.AllocationLimit) = some al ∧
      RegisterIncentive exampleEnv stateA 2 [⟨"acoin", ⟨15 * 10 ^ 17⟩⟩] 10 =
        ⟨none, some (.aboveLimit al.Denom al.Amount stateA.params.AllocationLimit), stateA⟩ :=
  RegisterIncentive_rate_too_high exampleEnv stateA 2 [⟨"acoin", ⟨15 * 10 ^ 17⟩⟩] 10
    (by decide) (by decide) (by decide) (by decide)

/-- C4 as stated fails: the mint denomination `aevmos` is requested first with
rate `2.0`, above the ceiling `0.05`, and the unknown denomination `nope`
second. Incentives are enabled, the contract is not registered and `nope` has
no supply, yet the error is the rate-too-high error of the first allocation,
not the unknown-denom error. -/
theorem RegisterIncentive_unknown_denom_not_first :
    stateEmpty.params.EnableIncentives = true ∧ GetIncentive stateEmpty 7 = none ∧
      (∃ al ∈ [(⟨"aevmos", ⟨2 * 10 ^ 18⟩⟩ : DecCoin), ⟨"nope", ⟨10 ^ 16⟩⟩],
        al.Denom ≠ exampleEnv.MintDenom ∧ exampleEnv.HasSupply al.Denom = false) ∧
      RegisterIncentive exampleEnv stateEmpty 7
          [⟨"aevmos", ⟨2 * 10 ^ 18⟩⟩, ⟨"nope", ⟨10 ^ 16⟩⟩] 10 =
        ⟨none, some (.aboveLimit "aevmos" ⟨2 * 10 ^ 18⟩ ⟨5 * 10 ^ 16⟩), stateEmpty⟩ ∧
      ∀ denom, (RegisterIncentive exampleEnv stateEmpty 7
          [⟨"aevmos", ⟨2 * 10 ^ 18⟩⟩, ⟨"nope", ⟨10 ^ 16⟩⟩] 10).err ≠ some (.zeroSupply denom) := by
  refine ⟨by decide, by decide, ⟨⟨"nope", ⟨10 ^ 16⟩⟩, by decide, by decide, by decide⟩,
    by decide, ?_⟩
  intro denom h
  have h2 : (RegisterIncentive exampleEnv stateEmpty 7
      [⟨"aevmos", ⟨2 * 10 ^ 18⟩⟩, ⟨"nope", ⟨10 ^ 16⟩⟩] 10).err =
      some (.aboveLimit "aevmos" ⟨2 * 10 ^ 18⟩ ⟨5 * 10 ^ 16⟩) := by decide
  rw [h2] at h
  cases h

/-- C4, amended: rules 3 and 4 are checked together, allocation by allocation.
With incentives enabled and the contract not registered, let `al` be the first
requested allocation whose denomination is not the mint denomination and has
no supply. If no allocation listed before `al` has a rate above the ceiling,
the call fails with the unknown-denom error for `al` (whatever the rates of
`al` and of the allocations after it); if one has, it fails with the
rate-too-high error of the first allocation above the ceiling, the one that
`find?` returns. The state is unchanged. -/
theorem RegisterIncentive_unknown_denom_order (env : Env) (s : State) (contract : Address)
    (pre : DecCoins) (al : DecCoin) (post : DecCoins) (epochs : Nat)
    (hen : s.params.EnableIncentives = true)
    (hreg : GetIncentive s contract = none)
    (hal : al.Denom ≠ env.MintDenom ∧ env.HasSupply al.Denom = false)
    (hpre : ∀ x ∈ pre, x.Denom ≠ env.MintDenom → env.HasSupply x.Denom = true) :
    ((∀ x ∈ pre, x.Amount.GT s.params.AllocationLimit = false) →
      RegisterIncentive env s contract (pre ++ al :: post) epochs =
        ⟨none, some (.zeroSupply al.Denom), s⟩) ∧
    ((∃ x ∈ pre, x.Amount.GT s.params.AllocationLimit = true) →
      ∃ x, pre.find? (fun y => y.Amount.GT s.params.AllocationLimit) = some x ∧
        RegisterIncentive env s contract (pre ++ al :: post) epochs =
          ⟨none, some (.aboveLimit x.Denom x.Amount s.params.AllocationLimit), s⟩) ∧
    (∀ x, pre.find? (fun y => y.Amount.GT s.params.AllocationLimit) = some x →
      RegisterIncentive env s contract (pre ++ al :: post) epochs =
        ⟨none, some (.aboveLimit x.Denom x.Amount s.params.AllocationLimit), s⟩) := by
  have hal2 : env.unknownDenom al = true := by
    simp [Env.unknownDenom, hal.1, hal.2]
  have hpre2 : ∀ x ∈ pre, env.unknownDenom x = false := by
    intro x hx
    by_cases hm : x.Denom = env.MintDenom
    · simp [Env.unknownDenom, hm]
    · simp [Env.unknownDenom, hpre x hx hm]
  rw [RegisterIncentive_of_guards env s contract (pre ++ al :: post) epochs hen hreg,
    checkAllocations_unknown_first env s.params pre al post hal2 hpre2]
  refine ⟨?_, ?_, ?_⟩
  · intro hlow
    have : pre.find? (fun x => x.Amount.GT s.params.AllocationLimit) = none := by
      rw [List.find?_eq_none]
      intro x hx
      simp [hlow x hx]
    rw [this]
  · intro hhigh
    cases hf : pre.find? (fun x => x.Amount.GT s.params.AllocationLimit) with
    | none =>
      exfalso
      obtain ⟨x, hx, hgt⟩ := hhigh
      rw [List.find?_eq_none] at hf
      exact hf x hx hgt
    | some x =>
      exact ⟨x, rfl, rfl⟩
  · intro x hf
    rw [hf]

/-- C4 amended, on three requests: the unknown denomination `nope` listed
first with a rate above the ceiling and followed by another rate above the
ceiling gives the unknown-denom error; listed after the mint denomination at
rates `2.0` and `3.0` it gives the rate-too-high error of the rate `2.0`, the
first one above the ceiling. -/
theorem RegisterIncentive_unknown_denom_order_witness :
    RegisterIncentive exampleEnv stateEmpty 7
        ([] ++ (⟨"nope", ⟨10 ^ 18⟩⟩ : DecCoin) :: [⟨"aevmos", ⟨2 * 10 ^ 18⟩⟩]) 10 =
      ⟨none, some (.zeroSupply "nope"), stateEmpty⟩ ∧
    RegisterIncentive exampleEnv stateEmpty 7
        ([⟨"aevmos", ⟨2 * 10 ^ 18⟩⟩, ⟨"aevmos", ⟨3 * 10 ^ 18⟩⟩] ++
          (⟨"nope", ⟨10 ^ 16⟩⟩ : DecCoin) :: []) 10 =
      ⟨none, some (.aboveLimit "aevmos" ⟨2 * 10 ^ 18⟩ ⟨5 * 10 ^ 16⟩), stateEmpty⟩ :=
  ⟨(RegisterIncentive_unknown_denom_order exampleEnv stateEmpty 7 []
      ⟨"nope", ⟨10 ^ 18⟩⟩ [⟨"aevmos", ⟨2 * 10 ^ 18⟩⟩] 10
      (by decide) (by decide) (by decide) (by decide)).1 (by decide),
   (RegisterIncentive_unknown_denom_order exampleEnv stateEmpty 7
      [⟨"aevmos", ⟨2 * 10 ^ 18⟩⟩, ⟨"aevmos", ⟨3 * 10 ^ 18⟩⟩]
      ⟨"nope", ⟨10 ^ 16⟩⟩ [] 10
      (by decide) (by decide) (by decide) (by decide)).2.2
      ⟨"aevmos", ⟨2 * 10 ^ 18⟩⟩ (by decide)⟩

/-- C5: with incentives enabled, registering a contract that is already
registered fails with the already-registered error for every allocation list
and epochs value; no incentive is returned and the state, hence the incentive
stored for the contract, is unchanged. -/
theorem RegisterIncentive_already_registered (env : Env) (s : State) (contract : Address)
    (allocations : DecCoins) (epochs : Nat)
    (hen : s.params.EnableIncentives = true)
    (hreg : IsIncentiveRegistered s contract = true) :
    RegisterIncentive env s contract allocations epochs =
        ⟨none, some (.alreadyRegistered contract), s⟩ ∧
      GetIncentive (RegisterIncentive env s contract allocations epochs).state contract =
        GetIncentive s contract := by
  rw [RegisterIncentive_of_registered env s contract allocations epochs hen hreg]
  exact ⟨rfl, rfl⟩

/-- C5 on the registered contract `1` of `stateA`, with an otherwise
acceptable request. -/
theorem RegisterIncentive_already_registered_witness :
    RegisterIncentive exampleEnv stateA 1 [⟨"acoin", ⟨10 ^ 16⟩⟩] 3 =
        ⟨none, some (.alreadyRegistered 1), stateA⟩ ∧
      GetIncentive (RegisterIncentive exampleEnv stateA 1 [⟨"acoin", ⟨10 ^ 16⟩⟩] 3).state 1 =
        GetIncentive stateA 1 :=
  RegisterIncentive_already_registered exampleEnv stateA 1 [⟨"acoin", ⟨10 ^ 16⟩⟩] 3
    (by decide) (by decide)

/-- C6: when the enabled flag is false, `RegisterIncentive` fails with the
disabled error for every contract, allocation list and epochs value, whatever
else is wrong with the request; no incentive is returned and the state is
unchanged. -/
theorem RegisterIncentive_disabled (env : Env) (s : State) (contract : Address)
    (allocations : DecCoins) (epochs : Nat)
    (hdis : s.params.EnableIncentives = false) :
    RegisterIncentive env s contract allocations epochs = ⟨none, some .disabled, s⟩ :=
  RegisterIncentive_of_disabled env s contract allocations epochs hdis

/-- C6 on a disabled state, for a registered contract, an unknown
denomination and a rate above the ceiling at once. -/
theorem RegisterIncentive_disabled_witness :
    RegisterIncentive exampleEnv stateDisabled 1 [⟨"nope", ⟨2 * 10 ^ 18⟩⟩] 3 =
      ⟨none, some .disabled, stateDisabled⟩ :=
  RegisterIncentive_disabled exampleEnv stateDisabled 1 [⟨"nope", ⟨2 * 10 ^ 18⟩⟩] 3 (by decide)

/-- C7: registration is atomic. Whenever `RegisterIncentive` returns an error,
it returns no incentive and the whole state after the call (params, incentive
store, gas meters) is the state before it. -/
theorem RegisterIncentive_error_atomic (env : Env) (s : State) (contract : Address)
    (allocations : DecCoins) (epochs : Nat)
    (herr : (RegisterIncentive env s contract allocations epochs).err ≠ none) :
    (RegisterIncentive env s contract allocations epochs).incentive = none ∧
      (RegisterIncentive env s contract allocations epochs).state = s := by
  cases hen : s.params.EnableIncentives with
  | false =>
    rw [RegisterIncentive_of_disabled env s contract allocations epochs hen]
    exact ⟨rfl, rfl⟩
  | true =>
    cases hreg : GetIncentive s contract with
    | some inc =>
      rw [RegisterIncentive_of_registered env s contract allocations epochs hen
        (by unfold IsIncentiveRegistered; rw [hreg]; rfl)]
      exact ⟨rfl, rfl⟩
    | none =>
      rw [RegisterIncentive_of_guards env s contract allocations epochs hen hreg] at herr ⊢
      cases h1 : checkAllocations env s.params allocations with
      | some e => exact ⟨rfl, rfl⟩
      | none =>
        cases h2 : checkRegistered s allocations with
        | some e => exact ⟨rfl, rfl⟩
        | none =>
          rw [h1, h2] at herr
          exact absurd rfl herr

/-- C7 on the over-allocated request of the spec (`0.6` stored, `0.5` asked). -/
theorem RegisterIncentive_error_atomic_witness :
    (RegisterIncentive exampleEnv stateA 2 [⟨"acoin", ⟨5 * 10 ^ 17⟩⟩] 10).incentive = none ∧
      (RegisterIncentive exampleEnv stateA 2 [⟨"acoin", ⟨5 * 10 ^ 17⟩⟩] 10).state = stateA :=
  RegisterIncentive_error_atomic exampleEnv stateA 2 [⟨"acoin", ⟨5 * 10 ^ 17⟩⟩] 10 (by decide)

/-- C8: when `RegisterIncentive` succeeds, the returned incentive carries the
given contract, allocations and epochs with total gas zero, a lookup of the
contract in the new state finds that incentive, the lookup of every other
contract gives what it gave before, and the params and the gas meters are
unchanged. -/
theorem RegisterIncentive_success_frame (env : Env) (s : State) (contract : Address)
    (allocations : DecCoins) (epochs : Nat)
    (hok : (RegisterIncentive env s contract allocations epochs).err = none) :
    (RegisterIncentive env s contract allocations epochs).incentive =
        some { Contract := contract, Allocations := allocations, Epochs := epochs, TotalGas := 0 } ∧
      GetIncentive (RegisterIncentive env s contract allocations epochs).state contract =
        some { Contract := contract, Allocations := allocations, Epochs := epochs, TotalGas := 0 } ∧
      (∀ other, other ≠ contract →
        GetIncentive (RegisterIncentive env s contract allocations epochs).state other =
          GetIncentive s other) ∧
      (RegisterIncentive env s contract allocations epochs).state.params = s.params ∧
      (RegisterIncentive env s contract allocations epochs).state.gasMeters = s.gasMeters := by
  obtain ⟨_, _, _, _, hR⟩ := RegisterIncentive_success env s contract allocations epochs hok
  rw [hR]
  refine ⟨rfl, ?_, ?_, rfl, rfl⟩
  · exact find_upsert_self (NewIncentive contract allocations epochs) s.incentives
  · intro other hne
    exact find_upsert_other (NewIncentive contract allocations epochs) s.incentives other hne

/-- C8 on `stateA`: contract `2` registers `0.05` of the mint denomination for
three epochs; contract `1` and the gas meters stay as they were. -/
theorem RegisterIncentive_success_frame_witness :
    (RegisterIncentive exampleEnv stateA 2 [⟨"aevmos", ⟨5 * 10 ^ 16⟩⟩] 3).incentive =
        some { Contract := 2, Allocations := [⟨"aevmos", ⟨5 * 10 ^ 16⟩⟩], Epochs := 3, TotalGas := 0 } ∧
      GetIncentive (RegisterIncentive exampleEnv stateA 2 [⟨"aevmos", ⟨5 * 10 ^ 16⟩⟩] 3).state 2 =
        some { Contract := 2, Allocations := [⟨"aevmos", ⟨5 * 10 ^ 16⟩⟩], Epochs := 3, TotalGas := 0 } ∧
      (∀ other, other ≠ 2 →
        GetIncentive (RegisterIncentive exampleEnv stateA 2 [⟨"aevmos", ⟨5 * 10 ^ 16⟩⟩] 3).state other =
          GetIncentive stateA other) ∧
      (RegisterIncentive exampleEnv stateA 2 [⟨"aevmos", ⟨5 * 10 ^ 16⟩⟩] 3).state.params =
        stateA.params ∧
      (RegisterIncentive exampleEnv stateA 2 [⟨"aevmos", ⟨5 * 10 ^ 16⟩⟩] 3).state.gasMeters =
        stateA.gasMeters :=
  RegisterIncentive_success_frame exampleEnv stateA 2 [⟨"aevmos", ⟨5 * 10 ^ 16⟩⟩] 3 (by decide)

/-! ## Cancellation -/

/-- C9: `CancelIncentive` on a contract that is not registered returns the
not-found error (`ErrInvalidAddress`, unmatching contract) and leaves the
state unchanged; on a registered contract it returns no error and a lookup of
the contract in the new state finds nothing. -/
theorem CancelIncentive_found_or_not (s : State) (contract : Address) :
    (GetIncentive s contract = none →
      CancelIncentive s contract = (some (.unmatchingContract contract), s)) ∧
    ((GetIncentive s contract).isSome = true →
      (CancelIncentive s contract).1 = none ∧
        GetIncentive (CancelIncentive s contract).2 contract = none) := by
  constructor
  · intro h
    unfold CancelIncentive
    rw [h]
  · intro h
    unfold CancelIncentive
    cases hg : GetIncentive s contract with
    | none => rw [hg] at h; cases h
    | some inc =>
      have hc : inc.Contract = contract := find_some_contract s.incentives contract inc hg
      refine ⟨rfl, ?_⟩
      show List.find? _ (List.filter _ s.incentives) = none
      rw [hc]
      exact find_filter_self s.incentives contract

/-- C9 on `stateA`: contract `2` is not registered, contract `1` is. -/
theorem CancelIncentive_found_or_not_witness :
    CancelIncentive stateA 2 = (some (.unmatchingContract 2), stateA) ∧
      ((CancelIncentive stateA 1).1 = none ∧ GetIncentive (CancelIncentive stateA 1).2 1 = none) :=
  ⟨(CancelIncentive_found_or_not stateA 2).1 (by decide),
   (CancelIncentive_found_or_not stateA 1).2 (by decide)⟩

/-! ## Lemmas on the registry totals -/

theorem mem_upsert (inc y : Incentive) (l : List Incentive) (h : y ∈ upsert inc l) :
    y = inc ∨ y ∈ l := by
  induction l with
  | nil =>
    simp only [upsert, List.mem_singleton] at h
    exact Or.inl h
  | cons x rest ih =>
    unfold upsert at h
    by_cases h1 : inc.Contract < x.Contract
    · rw [if_pos h1] at h
      rcases List.mem_cons.mp h with h | h
      · exact Or.inl h
      · exact Or.inr h
    · rw [if_neg h1] at h
      by_cases h2 : inc.Contract = x.Contract
      · rw [if_pos h2] at h
        rcases List.mem_cons.mp h with h | h
        · exact Or.inl h
        · exact Or.inr (List.mem_cons_of_mem _ h)
      · rw [if_neg h2] at h
        rcases List.mem_cons.mp h with h | h
        · exact Or.inr (h ▸ List.mem_cons_self _ _)
        · rcases ih h with h | h
          · exact Or.inl h
          · exact Or.inr (List.mem_cons_of_mem _ h)

theorem registryTotal_upsert (d : String) (inc : Incentive) (l : List Incentive)
    (h : l.find? (fun x => decide (x.Contract = inc.Contract)) = none) :
    (registryTotal d (upsert inc l)).i =
      (registryTotal d l).i + (denomSum d inc.Allocations).i := by
  induction l with
  | nil =>
    simp only [upsert, registryTotal_cons_i]
    simp [registryTotal, Dec.ZeroDec]
  | cons x rest ih =>
    rw [List.find?_cons] at h
    have hx : ¬ x.Contract = inc.Contract := by
      intro hc
      rw [decide_eq_true hc] at h
      cases h
    have h2 : rest.find? (fun x => decide (x.Contract = inc.Contract)) = none := by
      rw [decide_eq_false hx] at h
      exact h
    unfold upsert
    by_cases h1 : inc.Contract < x.Contract
    · rw [if_pos h1]
      simp only [registryTotal_cons_i]
      ring
    · rw [if_neg h1, if_neg (fun e => hx e.symm)]
      simp only [registryTotal_cons_i, ih h2]
      ring

theorem denomSum_nonneg (d : String) (als : DecCoins) (h : ∀ al ∈ als, 0 ≤ al.Amount.i) :
    0 ≤ (denomSum d als).i := by
  induction als with
  | nil => simp [denomSum, Dec.ZeroDec]
  | cons al rest ih =>
    have h1 := h al (List.mem_cons_self _ _)
    have h2 := ih (fun x hx => h x (List.mem_cons_of_mem _ hx))
    rw [denomSum_cons_i]
    by_cases hd : al.Denom = d
    · rw [if_pos hd]; omega
    · rw [if_neg hd]; omega

theorem registryTotal_filter_le (d : String) (p : Incentive → Bool) (l : List Incentive)
    (h : ratesNonneg l) : (registryTotal d (l.filter p)).i ≤ (registryTotal d l).i := by
  induction l with
  | nil => simp
  | cons x rest ih =>
    have h1 : 0 ≤ (denomSum d x.Allocations).i :=
      denomSum_nonneg d x.Allocations (h x (List.mem_cons_self _ _))
    have h2 := ih (fun y hy => h y (List.mem_cons_of_mem _ hy))
    rw [List.filter_cons]
    cases hp : p x with
    | true =>
      simp only [if_true, registryTotal_cons_i]
      omega
    | false =>
      simp only [Bool.false_eq_true, if_false, registryTotal_cons_i]
      omega

theorem denomSum_of_nodup (als : DecCoins) (al : DecCoin)
    (hnd : (als.map (fun x => x.Denom)).Nodup) (hal : al ∈ als) :
    (denomSum al.Denom als).i = al.Amount.i := by
  induction als with
  | nil => cases hal
  | cons x rest ih =>
    rw [List.map_cons, List.nodup_cons] at hnd
    rw [denomSum_cons_i]
    rcases List.mem_cons.mp hal with rfl | hin
    · have hnm : mentions al.Denom rest = false := by
        by_contra hc
        have hc2 : mentions al.Denom rest = true := by simpa using hc
        simp only [mentions, List.any_eq_true, decide_eq_true_eq] at hc2
        obtain ⟨y, hy, hyd⟩ := hc2
        exact hnd.1 (List.mem_map.mpr ⟨y, hy, hyd⟩)
      rw [if_pos rfl, denomSum_of_not_mentions _ _ hnm]
      omega
    · have hne : ¬ x.Denom = al.Denom := by
        intro hc
        exact hnd.1 (List.mem_map.mpr ⟨al, hin, hc.symm⟩)
      rw [if_neg hne, ih hnd.2 hin]
      omega

/-! ## Invariant I1 -/

/-- C10: invariant I1 is kept by registration and by cancellation. In a state
whose per-denomination totals are all at most `1.0` and whose stored rates are
non-negative, a successful `RegisterIncentive` of allocations with pairwise
distinct denominations and rates in `(0, 1]`, and a successful
`CancelIncentive` of any contract, both give a state whose per-denomination
totals are again all at most `1.0` (and whose stored rates are non-negative). -/
theorem I1_preserved (env : Env) (s : State) (contract : Address)
    (allocations : DecCoins) (epochs : Nat)
    (hI1 : I1 s) (hnn : ratesNonneg s.incentives)
    (hdistinct : (allocations.map (fun al => al.Denom)).Nodup)
    (hreq : ∀ al ∈ allocations, al.Amount.inUnit) :
    ((RegisterIncentive env s contract allocations epochs).err = none →
      I1 (RegisterIncentive env s contract allocations epochs).state ∧
        ratesNonneg (RegisterIncentive env s contract allocations epochs).state.incentives) ∧
    (∀ cancelled, (CancelIncentive s cancelled).1 = none →
      I1 (CancelIncentive s cancelled).2 ∧
        ratesNonneg (CancelIncentive s cancelled).2.incentives) := by
  have hone : Dec.OneDec.i = 1000000000000000000 := by decide
  have hI : ∀ d, (registryTotal d s.incentives).i ≤ 1000000000000000000 := by
    intro d
    have := hI1 d
    simp only [Dec.GT, decide_eq_false_iff_not, hone] at this
    omega
  constructor
  · intro hok
    obtain ⟨_, hreg, _, hchk, hR⟩ :=
      RegisterIncentive_success env s contract allocations epochs hok
    rw [hR]
    constructor
    · intro d
      show Dec.GT (registryTotal d (upsert (NewIncentive contract allocations epochs) s.incentives))
        Dec.OneDec = false
      simp only [Dec.GT, decide_eq_false_iff_not, hone]
      rw [registryTotal_upsert d (NewIncentive contract allocations epochs) s.incentives hreg]
      show ¬ (1000000000000000000 < (registryTotal d s.incentives).i + (denomSum d allocations).i)
      cases hm : mentions d allocations with
      | false =>
        have := denomSum_of_not_mentions d allocations hm
        have := hI d
        omega
      | true =>
        simp only [mentions, List.any_eq_true, decide_eq_true_eq] at hm
        obtain ⟨al, hal, rfl⟩ := hm
        have hsum := denomSum_of_nodup allocations al hdistinct hal
        have hunit := (hreq al hal).2
        rw [hone] at hunit
        cases hrm : registryMentions al.Denom s.incentives with
        | false =>
          have := registryTotal_of_not_mentions _ _ hrm
          omega
        | true =>
          rw [checkRegistered_eq, checkAllocationSums_eq_none_iff] at hchk
          have h3 := hchk al hal (registryTotal al.Denom s.incentives) (by simp [hrm])
          rw [Dec.Size_gt_one_iff] at h3
          simp only [Dec.Add] at h3
          omega
    · intro inc hinc al hal
      rcases mem_upsert _ _ _ hinc with rfl | hin
      · exact le_of_lt (hreq al hal).1
      · exact hnn inc hin al hal
  · intro cancelled hok
    unfold CancelIncentive at hok ⊢
    cases hg : GetIncentive s cancelled with
    | none => rw [hg] at hok; cases hok
    | some inc =>
      constructor
      · intro d
        show Dec.GT (registryTotal d (s.incentives.filter _)) Dec.OneDec = false
        simp only [Dec.GT, decide_eq_false_iff_not, hone]
        have h1 := registryTotal_filter_le d
          (fun x => !decide (x.Contract = inc.Contract)) s.incentives hnn
        have := hI d
        omega
      · intro x hx al hal
        exact hnn x (List.mem_of_mem_filter hx) al hal

/-- C10 on `stateA` (total `0.6` on `acoin`): registering contract `2` with
`0.05` of the mint denomination, and cancelling contract `1`. -/
theorem I1_preserved_witness :
    (I1 (RegisterIncentive exampleEnv stateA 2 [⟨"aevmos", ⟨5 * 10 ^ 16⟩⟩] 3).state ∧
      ratesNonneg (RegisterIncentive exampleEnv stateA 2 [⟨"aevmos", ⟨5 * 10 ^ 16⟩⟩] 3).state.incentives) ∧
    (I1 (CancelIncentive stateA 1).2 ∧ ratesNonneg (CancelIncentive stateA 1).2.incentives) :=
  have hI1 : I1 stateA := by
    intro d
    by_cases h : d = "acoin"
    · subst h; decide
    · have h2 : ¬ "acoin" = d := fun e => h e.symm
      simp [stateA, registryTotal, denomSum, h2, Dec.GT, Dec.ZeroDec, Dec.Add, Dec.OneDec,
        Dec.Precision]
  have h := I1_preserved exampleEnv stateA 2 [⟨"aevmos", ⟨5 * 10 ^ 16⟩⟩] 3 hI1
    (by decide) (by decide) (by decide)
  ⟨h.1 (by decide), h.2 1 (by decide)⟩

/-! ## Lemmas on key order and on genesis -/

/-- Keys strictly ascending along the list. -/
theorem wf_iff_pairwise (s : State) :
    s.WF ↔ s.incentives.Pairwise (fun a b => a.Contract < b.Contract) := by
  unfold State.WF
  rw [List.pairwise_map]

theorem upsert_sorted (x : Incentive) (l : List Incentive)
    (h : l.Pairwise (fun a b => a.Contract < b.Contract)) :
    (upsert x l).Pairwise (fun a b => a.Contract < b.Contract) := by
  induction l with
  | nil => simp [upsert]
  | cons y rest ih =>
    rw [List.pairwise_cons] at h
    unfold upsert
    by_cases h1 : x.Contract < y.Contract
    · rw [if_pos h1, List.pairwise_cons]
      refine ⟨?_, List.pairwise_cons.mpr h⟩
      intro z hz
      rcases List.mem_cons.mp hz with rfl | hz2
      · exact h1
      · exact lt_trans h1 (h.1 z hz2)
    · rw [if_neg h1]
      by_cases h2 : x.Contract = y.Contract
      · rw [if_pos h2, List.pairwise_cons]
        refine ⟨?_, h.2⟩
        intro z hz
        rw [h2]
        exact h.1 z hz
      · rw [if_neg h2, List.pairwise_cons]
        refine ⟨?_, ih h.2⟩
        intro z hz
        rcases mem_upsert x z rest hz with rfl | hz2
        · exact Nat.lt_of_le_of_ne (Nat.le_of_not_lt h1) (fun e => h2 e.symm)
        · exact h.1 z hz2

theorem upsert_append_last (x : Incentive) (pre : List Incentive)
    (h : ∀ y ∈ pre, y.Contract < x.Contract) : upsert x pre = pre ++ [x] := by
  induction pre with
  | nil => rfl
  | cons y rest ih =>
    have hy := h y (List.mem_cons_self _ _)
    unfold upsert
    rw [if_neg (Nat.lt_asymm hy), if_neg (Nat.ne_of_gt hy),
      ih (fun z hz => h z (List.mem_cons_of_mem _ hz))]
    rfl

theorem foldl_upsert_sorted (rest : List Incentive) : ∀ pre : List Incentive,
    (pre ++ rest).Pairwise (fun a b => a.Contract < b.Contract) →
    rest.foldl (fun acc x => upsert x acc) pre = pre ++ rest := by
  induction rest with
  | nil => intro pre _; simp
  | cons x tl ih =>
    intro pre h
    have hlt : ∀ y ∈ pre, y.Contract < x.Contract := by
      intro y hy
      rw [List.pairwise_append] at h
      exact h.2.2 y hy x (List.mem_cons_self _ _)
    rw [List.foldl_cons, upsert_append_last x pre hlt]
    have h2 : (pre ++ [x] ++ tl).Pairwise (fun a b => a.Contract < b.Contract) := by
      simpa using h
    rw [ih (pre ++ [x]) h2]
    simp

theorem foldl_SetIncentive (l : List Incentive) : ∀ s : State,
    l.foldl (fun ctx incentive => SetIncentive ctx incentive) s =
      { s with incentives := l.foldl (fun acc x => upsert x acc) s.incentives } := by
  induction l with
  | nil => intro s; rfl
  | cons x tl ih =>
    intro s
    rw [List.foldl_cons, ih (SetIncentive s x)]
    rfl

theorem InitGenesis_eq (s : State) (data : GenesisState) :
    InitGenesis s data =
      { params := data.Params
        incentives := data.Incentives.foldl (fun acc x => upsert x acc) s.incentives
        gasMeters := s.gasMeters } := by
  unfold InitGenesis
  rw [foldl_SetIncentive]
  rfl

theorem foldl_upsert_pairwise (l : List Incentive) : ∀ acc : List Incentive,
    acc.Pairwise (fun a b => a.Contract < b.Contract) →
    (l.foldl (fun acc x => upsert x acc) acc).Pairwise (fun a b => a.Contract < b.Contract) := by
  induction l with
  | nil => intro acc h; exact h
  | cons x tl ih =>
    intro acc h
    rw [List.foldl_cons]
    exact ih (upsert x acc) (upsert_sorted x acc h)

theorem find_upsert (x : Incentive) (l : List Incentive) (c : Address) :
    (upsert x l).find? (fun y => decide (y.Contract = c)) =
      if x.Contract = c then some x else l.find? (fun y => decide (y.Contract = c)) := by
  by_cases h : x.Contract = c
  · rw [if_pos h, ← h]
    exact find_upsert_self x l
  · rw [if_neg h]
    exact find_upsert_other x l c (fun e => h e.symm)

theorem find_foldl_upsert (l : List Incentive) : ∀ (acc : List Incentive) (c : Address),
    (l.foldl (fun acc x => upsert x acc) acc).find? (fun y => decide (y.Contract = c)) =
      match lastListed l c with
      | some x => some x
      | none => acc.find? (fun y => decide (y.Contract = c)) := by
  induction l with
  | nil => intro acc c; rfl
  | cons x tl ih =>
    intro acc c
    rw [List.foldl_cons, ih (upsert x acc) c]
    have hl : lastListed (x :: tl) c =
        match lastListed tl c with
        | some y => some y
        | none => if x.Contract = c then some x else none := by
      unfold lastListed
      rw [List.reverse_cons, List.find?_append]
      cases List.find? (fun inc => decide (inc.Contract = c)) tl.reverse with
      | some y => rfl
      | none =>
        by_cases hx : x.Contract = c
        · simp [hx]
        · simp [hx]
    rw [hl, find_upsert]
    cases lastListed tl c with
    | some y => rfl
    | none =>
      by_cases hx : x.Contract = c
      · simp [hx]
      · simp [hx]

theorem upsert_perm (x : Incentive) (l : List Incentive)
    (h : l.find? (fun y => decide (y.Contract = x.Contract)) = none) :
    (upsert x l).Perm (x :: l) := by
  induction l with
  | nil => exact List.Perm.refl _
  | cons y rest ih =>
    rw [List.find?_cons] at h
    have hy : ¬ y.Contract = x.Contract := by
      intro hc
      rw [decide_eq_true hc] at h
      cases h
    have h2 : rest.find? (fun z => decide (z.Contract = x.Contract)) = none := by
      rw [decide_eq_false hy] at h
      exact h
    unfold upsert
    by_cases h1 : x.Contract < y.Contract
    · rw [if_pos h1]
    · rw [if_neg h1, if_neg (fun e => hy e.symm)]
      exact ((ih h2).cons y).trans (List.Perm.swap x y rest)

theorem foldl_upsert_perm (l : List Incentive) : ∀ acc : List Incentive,
    (l.map (fun x => x.Contract)).Nodup →
    (∀ x ∈ l, acc.find? (fun y => decide (y.Contract = x.Contract)) = none) →
    (l.foldl (fun acc x => upsert x acc) acc).Perm (acc ++ l) := by
  induction l with
  | nil => intro acc _ _; simp
  | cons x tl ih =>
    intro acc hnd hdis
    rw [List.map_cons, List.nodup_cons] at hnd
    rw [List.foldl_cons]
    have hx := hdis x (List.mem_cons_self _ _)
    have hdis2 : ∀ z ∈ tl, (upsert x acc).find? (fun y => decide (y.Contract = z.Contract)) = none := by
      intro z hz
      have hne : ¬ x.Contract = z.Contract := by
        intro e
        exact hnd.1 (List.mem_map.mpr ⟨z, hz, e.symm⟩)
      rw [find_upsert, if_neg hne]
      exact hdis z (List.mem_cons_of_mem _ hz)
    refine (ih (upsert x acc) hnd.2 hdis2).trans ?_
    refine ((upsert_perm x acc hx).append_right tl).trans ?_
    simp only [List.cons_append]
    exact (List.perm_middle).symm

theorem find_of_mem_sorted (l : List Incentive) (x : Incentive)
    (h : l.Pairwise (fun a b => a.Contract < b.Contract)) (hx : x ∈ l) :
    l.find? (fun y => decide (y.Contract = x.Contract)) = some x := by
  induction l with
  | nil => cases hx
  | cons y rest ih =>
    rw [List.pairwise_cons] at h
    rw [List.find?_cons]
    rcases List.mem_cons.mp hx with rfl | hin
    · simp
    · have hlt := h.1 x hin
      have hne : ¬ y.Contract = x.Contract := Nat.ne_of_lt hlt
      rw [decide_eq_false hne]
      exact ih h.2 hin

/-- Well-formedness of the store is kept by every write of the keeper. -/
theorem SetIncentive_WF (s : State) (inc : Incentive) (h : s.WF) : (SetIncentive s inc).WF := by
  rw [wf_iff_pairwise] at h ⊢
  exact upsert_sorted inc s.incentives h

theorem DeleteIncentive_WF (s : State) (inc : Incentive) (h : s.WF) :
    (DeleteIncentive s inc).WF := by
  rw [wf_iff_pairwise] at h ⊢
  exact List.Pairwise.filter _ h

theorem RegisterIncentive_WF (env : Env) (s : State) (contract : Address)
    (allocations : DecCoins) (epochs : Nat) (h : s.WF) :
    (RegisterIncentive env s contract allocations epochs).state.WF := by
  unfold RegisterIncentive
  split
  · exact h
  · split
    · exact h
    · split
      · exact h
      · split
        · exact h
        · exact SetIncentive_WF s _ h

theorem CancelIncentive_WF (s : State) (contract : Address) (h : s.WF) :
    (CancelIncentive s contract).2.WF := by
  unfold CancelIncentive
  split
  · exact h
  · exact DeleteIncentive_WF s _ h

theorem InitGenesis_WF (s0 : State) (g : GenesisState) (h : s0.WF) : (InitGenesis s0 g).WF := by
  rw [wf_iff_pairwise] at h ⊢
  rw [InitGenesis_eq]
  exact foldl_upsert_pairwise g.Incentives s0.incentives h

/-! ## Lemmas on visiting orders -/

theorem Dec.eq_of_i (a b : Dec) (h : a.i = b.i) : a = b := by
  cases a; cases b; simp_all

theorem denomSum_perm (d : String) (als als2 : DecCoins) (h : als.Perm als2) :
    denomSum d als = denomSum d als2 := by
  apply Dec.eq_of_i
  induction h with
  | nil => rfl
  | cons x _ ih => rw [denomSum_cons_i, denomSum_cons_i, ih]
  | swap x y l =>
    rw [denomSum_cons_i, denomSum_cons_i, denomSum_cons_i, denomSum_cons_i]
    omega
  | trans _ _ ih1 ih2 => rw [ih1, ih2]

theorem mentions_perm (d : String) (als als2 : DecCoins) (h : als.Perm als2) :
    mentions d als = mentions d als2 := by
  induction h with
  | nil => rfl
  | cons x _ ih => rw [mentions_cons, mentions_cons, ih]
  | swap x y l =>
    rw [mentions_cons, mentions_cons, mentions_cons, mentions_cons]
    cases decide (x.Denom = d) <;> cases decide (y.Denom = d) <;> rfl
  | trans _ _ ih1 ih2 => rw [ih1, ih2]

theorem registryMentions_cons (d : String) (inc : Incentive) (rest : List Incentive) :
    registryMentions d (inc :: rest) =
      (mentions d inc.Allocations || registryMentions d rest) := by
  simp [registryMentions]

theorem registryTotal_perm (d : String) (l l2 : List Incentive) (h : l.Perm l2) :
    registryTotal d l = registryTotal d l2 := by
  apply Dec.eq_of_i
  induction h with
  | nil => rfl
  | cons x _ ih => rw [registryTotal_cons_i, registryTotal_cons_i, ih]
  | swap x y l =>
    rw [registryTotal_cons_i, registryTotal_cons_i, registryTotal_cons_i, registryTotal_cons_i]
    omega
  | trans _ _ ih1 ih2 => rw [ih1, ih2]

theorem registryMentions_perm (d : String) (l l2 : List Incentive) (h : l.Perm l2) :
    registryMentions d l = registryMentions d l2 := by
  induction h with
  | nil => rfl
  | cons x _ ih => rw [registryMentions_cons, registryMentions_cons, ih]
  | swap x y l =>
    rw [registryMentions_cons, registryMentions_cons, registryMentions_cons,
      registryMentions_cons]
    cases mentions d x.Allocations <;> cases mentions d y.Allocations <;> rfl
  | trans _ _ ih1 ih2 => rw [ih1, ih2]

theorem registry_forall2 (d : String) (l l2 : List Incentive)
    (h : List.Forall₂ (fun a b => a.Contract = b.Contract ∧ a.Allocations.Perm b.Allocations)
      l l2) :
    registryTotal d l = registryTotal d l2 ∧ registryMentions d l = registryMentions d l2 := by
  induction h with
  | nil => exact ⟨rfl, rfl⟩
  | cons hab _ ih =>
    constructor
    · apply Dec.eq_of_i
      rw [registryTotal_cons_i, registryTotal_cons_i, denomSum_perm d _ _ hab.2, ih.1]
    · rw [registryMentions_cons, registryMentions_cons, mentions_perm d _ _ hab.2, ih.2]

/-- The map built by the iterator does not depend on the visiting order. -/
theorem iterate_reordered (visited stored : List Incentive) (h : Reordered visited stored) :
    iterateList sumCallback visited DecMap.empty =
      iterateList sumCallback stored DecMap.empty := by
  obtain ⟨mid, hperm, hall⟩ := h
  funext d
  have h1 := currentAllocations_eq ⟨⟨true, Dec.ZeroDec⟩, visited, []⟩ d
  have h2 := currentAllocations_eq ⟨⟨true, Dec.ZeroDec⟩, stored, []⟩ d
  unfold IterateIncentives at h1 h2
  simp only at h1 h2
  rw [h1, h2, registryTotal_perm d _ _ hperm, registryMentions_perm d _ _ hperm,
    (registry_forall2 d _ _ hall).1, (registry_forall2 d _ _ hall).2]

/-! ## Genesis -/

/-- C11: export then import reproduces the state. For every state `s` with a
well-formed store (keys strictly ascending, as a key-value store holds them),
`InitGenesis` on a state with an empty registry, fed with `ExportGenesis s`,
gives a state with the params of `s` and exactly the incentives of `s`; a
second export returns the same genesis state. -/
theorem genesis_export_import (s0 s : State) (hempty : s0.incentives = []) (hwf : s.WF) :
    (InitGenesis s0 (ExportGenesis s)).params = s.params ∧
      (InitGenesis s0 (ExportGenesis s)).incentives = s.incentives ∧
      ExportGenesis (InitGenesis s0 (ExportGenesis s)) = ExportGenesis s := by
  have hinc : (InitGenesis s0 (ExportGenesis s)).incentives = s.incentives := by
    rw [InitGenesis_eq, hempty]
    show List.foldl (fun acc x => upsert x acc) [] s.incentives = s.incentives
    rw [foldl_upsert_sorted s.incentives [] (by simpa using (wf_iff_pairwise s).mp hwf)]
    rfl
  have hpar : (InitGenesis s0 (ExportGenesis s)).params = s.params := by
    rw [InitGenesis_eq]
    rfl
  refine ⟨hpar, hinc, ?_⟩
  show ({ Params := (InitGenesis s0 (ExportGenesis s)).params,
          Incentives := (InitGenesis s0 (ExportGenesis s)).incentives } : GenesisState) =
    ExportGenesis s
  rw [hpar, hinc]
  rfl

/-- C11 on `stateTwo`, imported into `stateEmpty`. -/
theorem genesis_export_import_witness :
    (InitGenesis stateEmpty (ExportGenesis stateTwo)).params = stateTwo.params ∧
      (InitGenesis stateEmpty (ExportGenesis stateTwo)).incentives = stateTwo.incentives ∧
      ExportGenesis (InitGenesis stateEmpty (ExportGenesis stateTwo)) = ExportGenesis stateTwo :=
  genesis_export_import stateEmpty stateTwo (by decide) (by decide)

/-- C15: the supply check exempts the mint denomination. With incentives
enabled and the contract not registered, if every requested denomination other
than the mint denomination has supply, `RegisterIncentive` never returns the
unknown-denom error (`ErrInvalidCoins`), whatever the supply of the mint
denomination itself. -/
theorem RegisterIncentive_mint_denom_exempt (env : Env) (s : State) (contract : Address)
    (allocations : DecCoins) (epochs : Nat)
    (hen : s.params.EnableIncentives = true)
    (hreg : GetIncentive s contract = none)
    (hsup : ∀ al ∈ allocations, al.Denom ≠ env.MintDenom → env.HasSupply al.Denom = true) :
    (∀ denom, (RegisterIncentive env s contract allocations epochs).err ≠
        some (.zeroSupply denom)) ∧
      ∀ e, (RegisterIncentive env s contract allocations epochs).err = some e →
        e.sentinel ≠ .ErrInvalidCoins := by
  have key : ∀ e, (RegisterIncentive env s contract allocations epochs).err = some e →
      e.sentinel ≠ .ErrInvalidCoins := by
    intro e he
    rw [RegisterIncentive_of_guards env s contract allocations epochs hen hreg,
      checkAllocations_of_supply env s.params allocations hsup] at he
    cases hf : allocations.find? (fun al => al.Amount.GT s.params.AllocationLimit) with
    | some al =>
      rw [hf] at he
      simp only [Option.map_some', Option.some.injEq] at he
      rw [← he]
      simp [Err.sentinel]
    | none =>
      rw [hf] at he
      simp only [Option.map_none'] at he
      cases h2 : checkRegistered s allocations with
      | some e2 =>
        rw [h2] at he
        simp only [Option.some.injEq] at he
        rw [checkRegistered_eq] at h2
        obtain ⟨x, _, cur, _, _, hx⟩ := checkAllocationSums_some _ _ _ h2
        rw [← he, hx]
        simp [Err.sentinel]
      | none =>
        rw [h2] at he
        cases he
  refine ⟨?_, key⟩
  intro denom h
  exact key _ h rfl

/-- C15 with the mint denomination `aevmos` requested although it has no
supply: the registration succeeds. -/
theorem RegisterIncentive_mint_denom_exempt_witness :
    exampleEnv.HasSupply exampleEnv.MintDenom = false ∧
      (RegisterIncentive exampleEnv stateEmpty 7 [⟨"aevmos", ⟨5 * 10 ^ 16⟩⟩] 3).err = none ∧
      ((∀ denom, (RegisterIncentive exampleEnv stateEmpty 7 [⟨"aevmos", ⟨5 * 10 ^ 16⟩⟩] 3).err ≠
          some (.zeroSupply denom)) ∧
        ∀ e, (RegisterIncentive exampleEnv stateEmpty 7 [⟨"aevmos", ⟨5 * 10 ^ 16⟩⟩] 3).err =
          some e → e.sentinel ≠ .ErrInvalidCoins) :=
  ⟨by decide, by decide,
    RegisterIncentive_mint_denom_exempt exampleEnv stateEmpty 7 [⟨"aevmos", ⟨5 * 10 ^ 16⟩⟩] 3
      (by decide) (by decide) (by decide)⟩

/-- C16: a stored allocation of rate zero is not skipped and changes the
outcome. The states `stateA` and `stateAZero` differ only in that contract `1`
additionally holds `(aevmos, 0)`; the request of contract `2` for `0.05` of
`aevmos` succeeds on `stateA` and fails with the over-allocated error on
`stateAZero`. The test `al.Amount.Size() == 0` of line 66 is never true: the
serialised zero is the one byte `0`. -/
theorem RegisterIncentive_zero_rate_not_skipped :
    stateAZero.WF ∧ stateAZero.params = stateA.params ∧
      stateAZero.gasMeters = stateA.gasMeters ∧
      stateAZero.incentives.map (fun inc => (inc.Contract, inc.Epochs, inc.TotalGas)) =
        stateA.incentives.map (fun inc => (inc.Contract, inc.Epochs, inc.TotalGas)) ∧
      stateAZero.incentives.map (fun inc => inc.Allocations) =
        stateA.incentives.map (fun inc => inc.Allocations ++ [⟨"aevmos", ⟨0⟩⟩]) ∧
      Dec.Size ⟨0⟩ = 1 ∧
      (RegisterIncentive exampleEnv stateA 2 [⟨"aevmos", ⟨5 * 10 ^ 16⟩⟩] 3).err = none ∧
      RegisterIncentive exampleEnv stateAZero 2 [⟨"aevmos", ⟨5 * 10 ^ 16⟩⟩] 3 =
        ⟨none, some (.overAllocated "aevmos" ⟨5 * 10 ^ 16⟩), stateAZero⟩ := by
  decide

/-- C17: `CancelIncentive` on a registered contract returns no error, leaves
the lookup of every other contract as it was, and leaves the params and all
gas meters, those of the cancelled contract included, unchanged. -/
theorem CancelIncentive_frame (s : State) (contract : Address)
    (hreg : IsIncentiveRegistered s contract = true) :
    (CancelIncentive s contract).1 = none ∧
      (∀ other, other ≠ contract →
        GetIncentive (CancelIncentive s contract).2 other = GetIncentive s other) ∧
      (CancelIncentive s contract).2.params = s.params ∧
      (CancelIncentive s contract).2.gasMeters = s.gasMeters := by
  unfold CancelIncentive
  cases hg : GetIncentive s contract with
  | none => simp [IsIncentiveRegistered, hg] at hreg
  | some inc =>
    have hc : inc.Contract = contract := find_some_contract s.incentives contract inc hg
    refine ⟨rfl, ?_, rfl, rfl⟩
    intro other hne
    show List.find? _ (List.filter _ s.incentives) = List.find? _ s.incentives
    rw [hc]
    exact find_filter_other s.incentives contract other hne

/-- C17 on `stateA`: cancelling contract `1` keeps its gas meter. -/
theorem CancelIncentive_frame_witness :
    (CancelIncentive stateA 1).2.gasMeters =
        [{ Contract := 1, Participant := 77, CumulativeGas := 500 }] ∧
      ((CancelIncentive stateA 1).1 = none ∧
        (∀ other, other ≠ 1 →
          GetIncentive (CancelIncentive stateA 1).2 other = GetIncentive stateA other) ∧
        (CancelIncentive stateA 1).2.params = stateA.params ∧
        (CancelIncentive stateA 1).2.gasMeters = stateA.gasMeters) :=
  ⟨by decide, CancelIncentive_frame stateA 1 (by decide)⟩

/-- C18: the result of `RegisterIncentive` does not depend on the order in
which the registered incentives, and the allocations inside each of them, are
visited while the per-denomination sums are accumulated: with the iterator
visiting any reordering of the store, the returned incentive, the error and
the resulting state are those of `RegisterIncentive`. -/
theorem RegisterIncentive_order_independent (visited : List Incentive) (env : Env) (s : State)
    (contract : Address) (allocations : DecCoins) (epochs : Nat)
    (hre : Reordered visited s.incentives) :
    RegisterIncentiveVisiting visited env s contract allocations epochs =
      RegisterIncentive env s contract allocations epochs := by
  have h : checkRegisteredVisiting visited s allocations = checkRegistered s allocations := by
    unfold checkRegisteredVisiting checkRegistered IterateIncentives
    rw [iterate_reordered visited s.incentives hre]
  unfold RegisterIncentiveVisiting RegisterIncentive
  rw [h]

/-- C18 on `stateTwo`, visited in the opposite order with swapped allocations. -/
theorem RegisterIncentive_order_independent_witness :
    RegisterIncentiveVisiting visitedTwo exampleEnv stateTwo 2 [⟨"acoin", ⟨10 ^ 17⟩⟩] 3 =
      RegisterIncentive exampleEnv stateTwo 2 [⟨"acoin", ⟨10 ^ 17⟩⟩] 3 :=
  RegisterIncentive_order_independent visitedTwo exampleEnv stateTwo 2
    [⟨"acoin", ⟨10 ^ 17⟩⟩] 3
    ⟨[{ Contract := 1, Allocations := [⟨"bcoin", ⟨10 ^ 17⟩⟩, ⟨"acoin", ⟨6 * 10 ^ 17⟩⟩],
        Epochs := 10, TotalGas := 0 },
      { Contract := 3, Allocations := [⟨"acoin", ⟨2 * 10 ^ 17⟩⟩], Epochs := 5, TotalGas := 0 }],
     by decide,
     List.Forall₂.cons ⟨rfl, by decide⟩ (List.Forall₂.cons ⟨rfl, by decide⟩ List.Forall₂.nil)⟩

/-- C19: import then export. For every genesis state `g`, `ExportGenesis`
after `InitGenesis` of `g` on a state with an empty registry returns the
params of `g` and a list of incentives with strictly ascending, hence pairwise
distinct, contracts in which an incentive occurs exactly when it is the one
listed last in `g` for its contract (so every contract of `g` is there once,
with its last entry, and no other contract is); when the contracts of `g` are
pairwise distinct the exported list is a permutation of `g.Incentives`. -/
theorem genesis_import_export (s0 : State) (g : GenesisState) (hempty : s0.incentives = []) :
    (ExportGenesis (InitGenesis s0 g)).Params = g.Params ∧
      ((ExportGenesis (InitGenesis s0 g)).Incentives.map (fun inc => inc.Contract)).Pairwise
        (fun a b => a < b) ∧
      (∀ contract, GetIncentive (InitGenesis s0 g) contract = lastListed g.Incentives contract) ∧
      (∀ inc, inc ∈ (ExportGenesis (InitGenesis s0 g)).Incentives ↔
        lastListed g.Incentives inc.Contract = some inc) ∧
      ((g.Incentives.map (fun inc => inc.Contract)).Nodup →
        (ExportGenesis (InitGenesis s0 g)).Incentives.Perm g.Incentives) := by
  have hexp : (ExportGenesis (InitGenesis s0 g)).Incentives =
      g.Incentives.foldl (fun acc x => upsert x acc) [] := by
    unfold ExportGenesis GetAllIncentives
    rw [InitGenesis_eq, hempty]
  have hsorted := foldl_upsert_pairwise g.Incentives [] List.Pairwise.nil
  have hfind : ∀ contract,
      (g.Incentives.foldl (fun acc x => upsert x acc) []).find?
        (fun y => decide (y.Contract = contract)) = lastListed g.Incentives contract := by
    intro contract
    rw [find_foldl_upsert g.Incentives [] contract]
    cases lastListed g.Incentives contract with
    | some x => rfl
    | none => rfl
  refine ⟨?_, ?_, ?_, ?_, ?_⟩
  · unfold ExportGenesis GetParams
    rw [InitGenesis_eq]
  · rw [hexp, List.pairwise_map]
    exact hsorted
  · intro contract
    unfold GetIncentive
    rw [InitGenesis_eq, hempty]
    exact hfind contract
  · intro inc
    rw [hexp]
    constructor
    · intro hin
      rw [← hfind inc.Contract]
      exact find_of_mem_sorted _ inc hsorted hin
    · intro hl
      rw [← hfind inc.Contract] at hl
      exact List.mem_of_find?_eq_some hl
  · intro hnd
    rw [hexp]
    have := foldl_upsert_perm g.Incentives [] hnd (fun x _ => rfl)
    simpa using this

/-- C19 on a genesis list that names contract `1` twice: the export holds the
second entry of contract `1` and the entry of contract `3`. -/
theorem genesis_import_export_witness :
    (ExportGenesis (InitGenesis stateEmpty
        ⟨stateA.params, stateTwo.incentives.reverse ++ stateA.incentives⟩)).Incentives =
      stateA.incentives ++ stateTwo.incentives.drop 1 ∧
    ((ExportGenesis (InitGenesis stateEmpty
        ⟨stateA.params, stateTwo.incentives.reverse ++ stateA.incentives⟩)).Params =
        stateA.params ∧
      ((ExportGenesis (InitGenesis stateEmpty
        ⟨stateA.params, stateTwo.incentives.reverse ++ stateA.incentives⟩)).Incentives.map
          (fun inc => inc.Contract)).Pairwise (fun a b => a < b) ∧
      (∀ contract, GetIncentive (InitGenesis stateEmpty
          ⟨stateA.params, stateTwo.incentives.reverse ++ stateA.incentives⟩) contract =
        lastListed (stateTwo.incentives.reverse ++ stateA.incentives) contract) ∧
      (∀ inc, inc ∈ (ExportGenesis (InitGenesis stateEmpty
          ⟨stateA.params, stateTwo.incentives.reverse ++ stateA.incentives⟩)).Incentives ↔
        lastListed (stateTwo.incentives.reverse ++ stateA.incentives) inc.Contract = some inc) ∧
      (((stateTwo.incentives.reverse ++ stateA.incentives).map
          (fun inc => inc.Contract)).Nodup →
        (ExportGenesis (InitGenesis stateEmpty
          ⟨stateA.params, stateTwo.incentives.reverse ++ stateA.incentives⟩)).Incentives.Perm
          (stateTwo.incentives.reverse ++ stateA.incentives))) :=
  ⟨by decide,
    genesis_import_export stateEmpty
      ⟨stateA.params, stateTwo.incentives.reverse ++ stateA.incentives⟩ (by decide)⟩

/-! ## Lemmas on the decimal arithmetic -/

theorem Dec.precisionReuse_eq : Dec.precisionReuse = 1000000000000000000 := by decide

theorem Dec.precisionReuse_pos : (0 : Int) < Dec.precisionReuse := by
  rw [Dec.precisionReuse_eq]; norm_num

theorem ediv_ediv_of_nonneg (a b c : Int) (ha : 0 ≤ a) (hb : 0 ≤ b) (hc : 0 ≤ c) :
    a / b / c = a / (b * c) := by
  lift a to ℕ using ha
  lift b to ℕ using hb
  lift c to ℕ using hc
  exact_mod_cast Nat.div_div_eq_div_mul a b c

/-- The reward pool `balance * rate` is exact: no digit is chopped. -/
theorem rewardPool_i (balance : Int) (rate : Dec) :
    (rewardPool balance rate).i = balance * rate.i := by
  unfold rewardPool Dec.MulTruncate Dec.NewDecFromInt Dec.chopPrecisionAndTruncate
  have : balance * Dec.precisionReuse * rate.i = (balance * rate.i) * Dec.precisionReuse := by
    ring
  simp only [this]
  exact Int.mul_tdiv_cancel _ (ne_of_gt Dec.precisionReuse_pos)

theorem ratio_quotient (g T P : Int) (hg : 0 ≤ g) (hT : 0 < T) (hP : 0 < P) :
    g * P * P * P / (T * P) / P = g * P / T := by
  have h1 : 0 ≤ g * P * P * P := by positivity
  have h2 : 0 ≤ T * P := by positivity
  have hPP : 0 < P * P := by positivity
  rw [ediv_ediv_of_nonneg _ _ _ h1 h2 (le_of_lt hP)]
  have h3 : g * P * P * P = g * P * (P * P) := by ring
  have h4 : T * P * P = T * (P * P) := by ring
  rw [h3, h4]
  exact Int.mul_ediv_mul_of_pos_left _ _ hPP

/-- The usage ratio of a meter: the quotient `g / T` cut after 18 places. -/
theorem gasRatio_i (g T : Nat) (hT : 0 < T) :
    ((Dec.NewDecFromInt g).QuoTruncate (Dec.NewDecFromInt T)).i =
      (g : Int) * Dec.precisionReuse / (T : Int) := by
  have hP := Dec.precisionReuse_pos
  have hT2 : (0 : Int) < (T : Int) := by exact_mod_cast hT
  have hg0 : (0 : Int) ≤ (g : Int) := Int.ofNat_nonneg g
  have hnum : (0 : Int) ≤ (g : Int) * Dec.precisionReuse * Dec.precisionReuse * Dec.precisionReuse :=
    Int.mul_nonneg (Int.mul_nonneg (Int.mul_nonneg hg0 (le_of_lt hP)) (le_of_lt hP)) (le_of_lt hP)
  have hden : (0 : Int) ≤ (T : Int) * Dec.precisionReuse := le_of_lt (Int.mul_pos hT2 hP)
  unfold Dec.QuoTruncate Dec.NewDecFromInt Dec.chopPrecisionAndTruncate
  simp only
  rw [Int.tdiv_eq_ediv hnum hden,
    Int.tdiv_eq_ediv (Int.ediv_nonneg hnum hden) (le_of_lt hP)]
  exact ratio_quotient _ _ _ hg0 hT2 hP

/-- The share of a meter as an integer quotient. -/
theorem participantShare_eq (balance : Int) (rate : Dec) (T : Nat) (gm : GasMeter)
    (hB : 0 ≤ balance) (hr : 0 ≤ rate.i) (hT : 0 < T) :
    participantShare (rewardPool balance rate) T gm =
      balance * rate.i * ((gm.CumulativeGas : Int) * Dec.precisionReuse / (T : Int)) /
        (Dec.precisionReuse * Dec.precisionReuse) := by
  have hP := Dec.precisionReuse_pos
  have hT2 : (0 : Int) < (T : Int) := by exact_mod_cast hT
  have hg0 : (0 : Int) ≤ (gm.CumulativeGas : Int) := Int.ofNat_nonneg _
  have hq0 : 0 ≤ (gm.CumulativeGas : Int) * Dec.precisionReuse / (T : Int) :=
    Int.ediv_nonneg (Int.mul_nonneg hg0 (le_of_lt hP)) (le_of_lt hT2)
  have hprod : 0 ≤ balance * rate.i *
      ((gm.CumulativeGas : Int) * Dec.precisionReuse / (T : Int)) :=
    Int.mul_nonneg (Int.mul_nonneg hB hr) hq0
  unfold participantShare Dec.TruncateInt Dec.MulTruncate Dec.chopPrecisionAndTruncate
  simp only
  rw [rewardPool_i, gasRatio_i _ _ hT, Int.tdiv_eq_ediv hprod (le_of_lt hP),
    Int.tdiv_eq_ediv (Int.ediv_nonneg hprod (le_of_lt hP)) (le_of_lt hP),
    ediv_ediv_of_nonneg _ _ _ hprod (le_of_lt hP) (le_of_lt hP)]

theorem participantShare_nonneg (balance : Int) (rate : Dec) (T : Nat) (gm : GasMeter)
    (hB : 0 ≤ balance) (hr : 0 ≤ rate.i) (hT : 0 < T) :
    0 ≤ participantShare (rewardPool balance rate) T gm := by
  have hP := Dec.precisionReuse_pos
  have hT2 : (0 : Int) < (T : Int) := by exact_mod_cast hT
  have hg0 : (0 : Int) ≤ (gm.CumulativeGas : Int) := Int.ofNat_nonneg _
  rw [participantShare_eq _ _ _ _ hB hr hT]
  apply Int.ediv_nonneg
  · exact Int.mul_nonneg (Int.mul_nonneg hB hr)
      (Int.ediv_nonneg (Int.mul_nonneg hg0 (le_of_lt hP)) (le_of_lt hT2))
  · exact le_of_lt (Int.mul_pos hP hP)

theorem share_mul_le_aux (X q g T P k : Int) (hX : 0 ≤ X) (hT : 0 < T) (hP : 0 < P)
    (hk : k * (P * P) ≤ X * q) (hq : q * T ≤ g * P) : k * (P * T) ≤ X * g := by
  have h1 : k * (P * P) * T ≤ X * q * T := Int.mul_le_mul_of_nonneg_right hk (le_of_lt hT)
  have h2 : X * (q * T) ≤ X * (g * P) := Int.mul_le_mul_of_nonneg_left hq hX
  have h3 : k * (P * T) * P ≤ X * g * P := by
    calc k * (P * T) * P = k * (P * P) * T := by ring
      _ ≤ X * q * T := h1
      _ = X * (q * T) := by ring
      _ ≤ X * (g * P) := h2
      _ = X * g * P := by ring
  exact Int.le_of_mul_le_mul_right h3 hP

/-- The share of a meter, scaled, is bounded by its part of the reward pool. -/
theorem participantShare_mul_le (balance : Int) (rate : Dec) (T : Nat) (gm : GasMeter)
    (hB : 0 ≤ balance) (hr : 0 ≤ rate.i) (hT : 0 < T) :
    participantShare (rewardPool balance rate) T gm * (Dec.precisionReuse * (T : Int)) ≤
      balance * rate.i * (gm.CumulativeGas : Int) := by
  have hP := Dec.precisionReuse_pos
  have hT2 : (0 : Int) < (T : Int) := by exact_mod_cast hT
  rw [participantShare_eq _ _ _ _ hB hr hT]
  apply share_mul_le_aux (balance * rate.i)
    ((gm.CumulativeGas : Int) * Dec.precisionReuse / (T : Int)) _ _ _ _
    (Int.mul_nonneg hB hr) hT2 hP
  · exact Int.ediv_mul_le _ (ne_of_gt (Int.mul_pos hP hP))
  · exact Int.ediv_mul_le _ (ne_of_gt hT2)

/-- A share never exceeds the exact quotient `floor(B * rate * g / T)`. -/
theorem participantShare_le_floor (balance : Int) (rate : Dec) (T : Nat) (gm : GasMeter)
    (hB : 0 ≤ balance) (hr : 0 ≤ rate.i) (hT : 0 < T) :
    participantShare (rewardPool balance rate) T gm ≤
      balance * rate.i * (gm.CumulativeGas : Int) / ((T : Int) * 10 ^ 18) := by
  have hP := Dec.precisionReuse_pos
  have hT2 : (0 : Int) < (T : Int) := by exact_mod_cast hT
  have h := participantShare_mul_le balance rate T gm hB hr hT
  have hP2 : Dec.precisionReuse = 10 ^ 18 := rfl
  rw [← hP2]
  apply Int.le_ediv_of_mul_le (Int.mul_pos hT2 hP)
  rw [Int.mul_comm (T : Int) Dec.precisionReuse]
  exact h

/-- When the usage ratio has no digit beyond the eighteenth place, the share
is the exact quotient `floor(B * rate * g / T)`. -/
theorem participantShare_exact (balance : Int) (rate : Dec) (T : Nat) (gm : GasMeter)
    (hB : 0 ≤ balance) (hr : 0 ≤ rate.i) (hT : 0 < T)
    (hratio : (T : Int) ∣ (gm.CumulativeGas : Int) * 10 ^ 18) :
    participantShare (rewardPool balance rate) T gm =
      balance * rate.i * (gm.CumulativeGas : Int) / ((T : Int) * 10 ^ 18) := by
  have hP := Dec.precisionReuse_pos
  have hT2 : (0 : Int) < (T : Int) := by exact_mod_cast hT
  have hP2 : Dec.precisionReuse = 10 ^ 18 := rfl
  rw [← hP2] at hratio ⊢
  rw [participantShare_eq _ _ _ _ hB hr hT]
  obtain ⟨q, hq⟩ := hratio
  have h1 : (gm.CumulativeGas : Int) * Dec.precisionReuse / (T : Int) = q := by
    rw [hq]
    exact Int.mul_ediv_cancel_left q (ne_of_gt hT2)
  rw [h1]
  have h2 : balance * rate.i * q / (Dec.precisionReuse * Dec.precisionReuse) =
      balance * rate.i * q * (T : Int) / (Dec.precisionReuse * Dec.precisionReuse * (T : Int)) :=
    (Int.mul_ediv_mul_of_pos_left _ _ hT2).symm
  have h3 : balance * rate.i * q * (T : Int) =
      balance * rate.i * (gm.CumulativeGas : Int) * Dec.precisionReuse := by
    calc balance * rate.i * q * (T : Int) = balance * rate.i * ((T : Int) * q) := by ring
      _ = balance * rate.i * ((gm.CumulativeGas : Int) * Dec.precisionReuse) := by rw [hq]
      _ = balance * rate.i * (gm.CumulativeGas : Int) * Dec.precisionReuse := by ring
  have h4 : Dec.precisionReuse * Dec.precisionReuse * (T : Int) =
      (T : Int) * Dec.precisionReuse * Dec.precisionReuse := by ring
  rw [h2, h3, h4]
  exact Int.mul_ediv_mul_of_pos_left _ _ hP

/-- The payouts of one allocation, scaled, against the usage of the meters. -/
theorem payoutsOf_mul_le (balance : Int) (rate : Dec) (T : Nat) (ms : List GasMeter)
    (hB : 0 ≤ balance) (hr : 0 ≤ rate.i) (hT : 0 < T) :
    payoutsOf (rewardPool balance rate) T ms * (Dec.precisionReuse * (T : Int)) ≤
      balance * rate.i * (usageOf ms : Int) := by
  induction ms with
  | nil => simp [payoutsOf, usageOf]
  | cons gm rest ih =>
    have h := participantShare_mul_le balance rate T gm hB hr hT
    have e1 : payoutsOf (rewardPool balance rate) T (gm :: rest) =
        participantShare (rewardPool balance rate) T gm +
          payoutsOf (rewardPool balance rate) T rest := by
      simp [payoutsOf]
    have e2 : (usageOf (gm :: rest) : Int) = (gm.CumulativeGas : Int) + (usageOf rest : Int) := by
      simp [usageOf]
    rw [e1, e2, Int.add_mul, Int.mul_add]
    exact Int.add_le_add h ih

theorem payoutsOf_nonneg (balance : Int) (rate : Dec) (T : Nat) (ms : List GasMeter)
    (hB : 0 ≤ balance) (hr : 0 ≤ rate.i) (hT : 0 < T) :
    0 ≤ payoutsOf (rewardPool balance rate) T ms := by
  induction ms with
  | nil => simp [payoutsOf]
  | cons gm rest ih =>
    have h := participantShare_nonneg balance rate T gm hB hr hT
    have e1 : payoutsOf (rewardPool balance rate) T (gm :: rest) =
        participantShare (rewardPool balance rate) T gm +
          payoutsOf (rewardPool balance rate) T rest := by
      simp [payoutsOf]
    rw [e1]
    exact Int.add_nonneg h ih

/-- When the meters add up to at most the total, the payouts of one allocation
stay within `floor(balance * rate)`. -/
theorem payoutsOf_le (balance : Int) (rate : Dec) (T : Nat) (ms : List GasMeter)
    (hB : 0 ≤ balance) (hr : 0 ≤ rate.i) (hT : 0 < T) (hsum : usageOf ms ≤ T) :
    payoutsOf (rewardPool balance rate) T ms ≤ balance * rate.i / 10 ^ 18 := by
  have hP := Dec.precisionReuse_pos
  have hT2 : (0 : Int) < (T : Int) := by exact_mod_cast hT
  have hP2 : Dec.precisionReuse = 10 ^ 18 := rfl
  rw [← hP2]
  have h := payoutsOf_mul_le balance rate T ms hB hr hT
  have hs : (usageOf ms : Int) ≤ (T : Int) := by exact_mod_cast hsum
  have h2 : balance * rate.i * (usageOf ms : Int) ≤ balance * rate.i * (T : Int) :=
    Int.mul_le_mul_of_nonneg_left hs (Int.mul_nonneg hB hr)
  apply Int.le_ediv_of_mul_le hP
  have h3 : payoutsOf (rewardPool balance rate) T ms * Dec.precisionReuse * (T : Int) ≤
      balance * rate.i * (T : Int) := by
    calc payoutsOf (rewardPool balance rate) T ms * Dec.precisionReuse * (T : Int)
        = payoutsOf (rewardPool balance rate) T ms * (Dec.precisionReuse * (T : Int)) := by ring
      _ ≤ balance * rate.i * (usageOf ms : Int) := h
      _ ≤ balance * rate.i * (T : Int) := h2
  exact Int.le_of_mul_le_mul_right h3 hT2

/-! ## Lemmas on the processing of one incentive -/

theorem GetIncentive_finishEpoch_self (inc : Incentive) (s : State) :
    GetIncentive (finishEpoch inc s) inc.Contract =
      if inc.Epochs - 1 = 0 then none
      else some { inc with Epochs := inc.Epochs - 1, TotalGas := 0 } := by
  unfold finishEpoch GetIncentive
  by_cases h : inc.Epochs - 1 = 0
  · rw [if_pos h, if_pos h]
    exact find_filter_self s.incentives inc.Contract
  · rw [if_neg h, if_neg h]
    exact find_upsert_self { inc with Epochs := inc.Epochs - 1, TotalGas := 0 } s.incentives

theorem GetIncentive_finishEpoch_other (inc : Incentive) (s : State) (c : Address)
    (hc : c ≠ inc.Contract) : GetIncentive (finishEpoch inc s) c = GetIncentive s c := by
  unfold finishEpoch GetIncentive
  by_cases h : inc.Epochs - 1 = 0
  · rw [if_pos h]
    exact find_filter_other s.incentives inc.Contract c hc
  · rw [if_neg h]
    exact find_upsert_other { inc with Epochs := inc.Epochs - 1, TotalGas := 0 } s.incentives c hc

theorem gasMeters_finishEpoch (inc : Incentive) (s : State) :
    (finishEpoch inc s).gasMeters = s.gasMeters := by
  unfold finishEpoch
  by_cases h : inc.Epochs - 1 = 0
  · rw [if_pos h]; rfl
  · rw [if_neg h]; rfl

theorem meters_DeleteGasMeters_self (s : State) (c : Address) :
    GetIncentiveGasMeters (DeleteGasMeters s c) c = [] := by
  unfold GetIncentiveGasMeters DeleteGasMeters
  simp only [List.filter_filter]
  rw [List.filter_eq_nil_iff]
  intro gm _
  cases decide (gm.Contract = c) <;> simp

theorem meters_DeleteGasMeters_other (s : State) (c c2 : Address) (h : c2 ≠ c) :
    GetIncentiveGasMeters (DeleteGasMeters s c) c2 = GetIncentiveGasMeters s c2 := by
  unfold GetIncentiveGasMeters DeleteGasMeters
  simp only [List.filter_filter]
  apply List.filter_congr
  intro gm _
  by_cases h1 : gm.Contract = c2
  · have h2 : ¬ gm.Contract = c := fun e => h (h1.symm.trans e)
    simp [h1, h2]
    exact fun e => h e
  · simp [h1]

/-- The state after a successful processing of one incentive. -/
theorem distributeIncentive_state (inc : Incentive) (s : State) (b : Bank)
    (hok : (distributeIncentive inc s b).err = none) :
    (distributeIncentive inc s b).state =
      finishEpoch inc (if inc.TotalGas = 0 then s else DeleteGasMeters s inc.Contract) := by
  unfold distributeIncentive at hok ⊢
  by_cases h : inc.TotalGas = 0
  · rw [if_pos h, if_pos h]
  · rw [if_neg h] at hok ⊢
    rw [if_neg h]
    cases hp : payAllocations (GetIncentiveGasMeters s inc.Contract) inc.TotalGas
        inc.Allocations b with
    | mk e b2 =>
      rw [hp] at hok
      cases e with
      | some e => cases hok
      | none => rfl

/-- The state after a failed processing is the state before it. -/
theorem distributeIncentive_state_of_error (inc : Incentive) (s : State) (b : Bank)
    (herr : (distributeIncentive inc s b).err ≠ none) :
    (distributeIncentive inc s b).state = s := by
  unfold distributeIncentive at herr ⊢
  by_cases h : inc.TotalGas = 0
  · rw [if_pos h] at herr
    exact absurd rfl herr
  · rw [if_neg h] at herr ⊢
    cases hp : payAllocations (GetIncentiveGasMeters s inc.Contract) inc.TotalGas
        inc.Allocations b with
    | mk e b2 =>
      rw [hp] at herr
      cases e with
      | some e => rfl
      | none => exact absurd rfl herr

/-- Processing an incentive leaves the entry and the meters of every other
contract as they were, whether it succeeds or not. -/
theorem distributeIncentive_other (inc : Incentive) (s : State) (b : Bank) (c : Address)
    (hc : c ≠ inc.Contract) :
    GetIncentive (distributeIncentive inc s b).state c = GetIncentive s c ∧
      GetIncentiveGasMeters (distributeIncentive inc s b).state c =
        GetIncentiveGasMeters s c := by
  cases herr : (distributeIncentive inc s b).err with
  | some e =>
    rw [distributeIncentive_state_of_error inc s b (by rw [herr]; simp)]
    exact ⟨rfl, rfl⟩
  | none =>
    rw [distributeIncentive_state inc s b herr, GetIncentive_finishEpoch_other _ _ _ hc]
    have hm : GetIncentiveGasMeters (finishEpoch inc
        (if inc.TotalGas = 0 then s else DeleteGasMeters s inc.Contract)) c =
        GetIncentiveGasMeters (if inc.TotalGas = 0 then s else DeleteGasMeters s inc.Contract) c := by
      unfold GetIncentiveGasMeters
      rw [gasMeters_finishEpoch]
    rw [hm]
    by_cases h : inc.TotalGas = 0
    · rw [if_pos h]
      exact ⟨rfl, rfl⟩
    · rw [if_neg h]
      exact ⟨rfl, meters_DeleteGasMeters_other s inc.Contract c hc⟩

/-- After a successful processing: the entry and the meters of the incentive. -/
theorem distributeIncentive_self (inc : Incentive) (s : State) (b : Bank)
    (hok : (distributeIncentive inc s b).err = none) :
    GetIncentive (distributeIncentive inc s b).state inc.Contract =
        (if inc.Epochs - 1 = 0 then none
          else some { inc with Epochs := inc.Epochs - 1, TotalGas := 0 }) ∧
      GetIncentiveGasMeters (distributeIncentive inc s b).state inc.Contract =
        (if inc.TotalGas = 0 then GetIncentiveGasMeters s inc.Contract else []) := by
  rw [distributeIncentive_state inc s b hok, GetIncentive_finishEpoch_self]
  refine ⟨rfl, ?_⟩
  have hm : GetIncentiveGasMeters (finishEpoch inc
      (if inc.TotalGas = 0 then s else DeleteGasMeters s inc.Contract)) inc.Contract =
      GetIncentiveGasMeters (if inc.TotalGas = 0 then s else DeleteGasMeters s inc.Contract)
        inc.Contract := by
    unfold GetIncentiveGasMeters
    rw [gasMeters_finishEpoch]
  rw [hm]
  by_cases h : inc.TotalGas = 0
  · rw [if_pos h, if_pos h]
  · rw [if_neg h, if_neg h]
    exact meters_DeleteGasMeters_self s inc.Contract

/-! ## Lemmas on the iteration of the distribution -/

theorem iterate_distribute_cons (inc : Incentive) (rest : List Incentive)
    (acc : DistributeResult) :
    iterateList distributeCallback (inc :: rest) acc =
      if (distributeIncentive inc acc.state acc.bank).err.isSome then
        distributeIncentive inc acc.state acc.bank
      else iterateList distributeCallback rest (distributeIncentive inc acc.state acc.bank) := by
  rw [iterateList]
  rfl

/-- Success of the iteration is success of the first step and of the rest. -/
theorem iterate_distribute_ok (inc : Incentive) (rest : List Incentive) (acc : DistributeResult)
    (hok : (iterateList distributeCallback (inc :: rest) acc).err = none) :
    (distributeIncentive inc acc.state acc.bank).err = none ∧
      iterateList distributeCallback (inc :: rest) acc =
        iterateList distributeCallback rest (distributeIncentive inc acc.state acc.bank) := by
  rw [iterate_distribute_cons] at hok ⊢
  cases he : (distributeIncentive inc acc.state acc.bank).err with
  | some e =>
    rw [he] at hok
    simp only [Option.isSome_some, if_true] at hok
    rw [he] at hok
    cases hok
  | none =>
    simp

/-- Contracts that the iteration does not visit keep their entry and meters. -/
theorem iterate_distribute_other (l : List Incentive) (c : Address)
    (hc : ∀ inc ∈ l, c ≠ inc.Contract) : ∀ acc : DistributeResult,
    GetIncentive (iterateList distributeCallback l acc).state c = GetIncentive acc.state c ∧
      GetIncentiveGasMeters (iterateList distributeCallback l acc).state c =
        GetIncentiveGasMeters acc.state c := by
  induction l with
  | nil => intro acc; exact ⟨rfl, rfl⟩
  | cons inc rest ih =>
    intro acc
    have hstep := distributeIncentive_other inc acc.state acc.bank c
      (hc inc (List.mem_cons_self _ _))
    rw [iterate_distribute_cons]
    by_cases he : (distributeIncentive inc acc.state acc.bank).err.isSome = true
    · rw [if_pos he]
      exact hstep
    · rw [if_neg he]
      have := ih (fun x hx => hc x (List.mem_cons_of_mem _ hx))
        (distributeIncentive inc acc.state acc.bank)
      rw [this.1, this.2]
      exact hstep

/-- After a successful iteration over incentives with pairwise distinct
contracts: the entry and the meters of every visited incentive. -/
theorem iterate_distribute_self (l : List Incentive)
    (hnd : (l.map (fun x => x.Contract)).Nodup) : ∀ acc : DistributeResult,
    (iterateList distributeCallback l acc).err = none → ∀ inc ∈ l,
    GetIncentive (iterateList distributeCallback l acc).state inc.Contract =
        (if inc.Epochs - 1 = 0 then none
          else some { inc with Epochs := inc.Epochs - 1, TotalGas := 0 }) ∧
      GetIncentiveGasMeters (iterateList distributeCallback l acc).state inc.Contract =
        (if inc.TotalGas = 0 then GetIncentiveGasMeters acc.state inc.Contract else []) := by
  induction l with
  | nil => intro acc _ inc hinc; cases hinc
  | cons x rest ih =>
    intro acc hok inc hinc
    rw [List.map_cons, List.nodup_cons] at hnd
    obtain ⟨hx, heq⟩ := iterate_distribute_ok x rest acc hok
    rw [heq] at hok ⊢
    rcases List.mem_cons.mp hinc with rfl | hin
    · have hother := iterate_distribute_other rest inc.Contract
        (fun y hy e => hnd.1 (List.mem_map.mpr ⟨y, hy, e.symm⟩))
        (distributeIncentive inc acc.state acc.bank)
      rw [hother.1, hother.2]
      exact distributeIncentive_self inc acc.state acc.bank hx
    · have hne : inc.Contract ≠ x.Contract := by
        intro e
        exact hnd.1 (List.mem_map.mpr ⟨inc, hin, e⟩)
      have := ih hnd.2 (distributeIncentive x acc.state acc.bank) hok inc hin
      rw [this.1, this.2, (distributeIncentive_other x acc.state acc.bank inc.Contract hne).2]
      exact ⟨rfl, rfl⟩

theorem nodup_of_WF (s : State) (h : s.WF) : (s.incentives.map (fun x => x.Contract)).Nodup := by
  unfold State.WF at h
  exact h.imp (fun hab => Nat.ne_of_lt hab)

theorem mem_of_GetIncentive (s : State) (c : Address) (inc : Incentive)
    (h : GetIncentive s c = some inc) : inc ∈ s.incentives ∧ inc.Contract = c :=
  ⟨List.mem_of_find?_eq_some h, find_some_contract s.incentives c inc h⟩

/-- Lookup of one meter through the meters of its contract. -/
theorem GetIncentiveGasMeter_eq (s : State) (c p : Address) :
    GetIncentiveGasMeter s c p =
      ((GetIncentiveGasMeters s c).find? (fun gm => decide (gm.Participant = p))).map
        (fun gm => gm.CumulativeGas) := by
  unfold GetIncentiveGasMeter GetIncentiveGasMeters
  rw [List.find?_filter]
  congr 1
  congr 1
  funext gm
  simp [Bool.decide_and]

/-! ## Lemmas on the ledger -/

theorem transfer_some (b b2 : Bank) (p : Address) (d : String) (a : Int)
    (h : b.transfer p d a = some b2) :
    (∀ d2, b2.pool d2 = if d2 = d then b.pool d2 - a else b.pool d2) ∧
      (∀ p2 d2, b2.accounts p2 d2 =
        if p2 = p ∧ d2 = d then b.accounts p2 d2 + a else b.accounts p2 d2) := by
  unfold Bank.transfer at h
  by_cases hc : a < 0 ∨ b.pool d < a
  · rw [if_pos hc] at h
    cases h
  · rw [if_neg hc] at h
    simp only [Option.some.injEq] at h
    subst h
    exact ⟨fun _ => rfl, fun _ _ => rfl⟩

/-- Paying the meters for one denomination leaves every other denomination
as it was, whether the payment succeeds or not. -/
theorem payMeters_frame (d : String) (rewardPool : Dec) (T : Nat) (d2 : String) (hd : d2 ≠ d)
    (ms : List GasMeter) : ∀ b : Bank,
    (payMeters d rewardPool T ms b).2.pool d2 = b.pool d2 ∧
      ∀ p, (payMeters d rewardPool T ms b).2.accounts p d2 = b.accounts p d2 := by
  induction ms with
  | nil => intro b; exact ⟨rfl, fun _ => rfl⟩
  | cons gm rest ih =>
    intro b
    rw [payMeters]
    by_cases h0 : participantShare rewardPool T gm = 0
    · rw [if_pos h0]
      exact ih b
    · rw [if_neg h0]
      cases ht : b.transfer gm.Participant d (participantShare rewardPool T gm) with
      | none => exact ⟨rfl, fun _ => rfl⟩
      | some b2 =>
        obtain ⟨hp, ha⟩ := transfer_some b b2 _ _ _ ht
        have := ih b2
        simp only []
        refine ⟨?_, ?_⟩
        · rw [this.1, hp, if_neg hd]
        · intro p
          rw [this.2 p, ha, if_neg (fun e => hd e.2)]

/-- After a successful payment of the meters, every participant has received
the shares of the meters that name it. -/
theorem payMeters_credit (d : String) (rewardPool : Dec) (T : Nat) (ms : List GasMeter) :
    ∀ b : Bank, (payMeters d rewardPool T ms b).1 = none →
      ∀ p, (payMeters d rewardPool T ms b).2.accounts p d =
        b.accounts p d + sharesOf rewardPool T p ms := by
  induction ms with
  | nil => intro b _ p; simp [payMeters, sharesOf]
  | cons gm rest ih =>
    intro b hok p
    rw [payMeters] at hok ⊢
    rw [sharesOf]
    by_cases h0 : participantShare rewardPool T gm = 0
    · rw [if_pos h0] at hok ⊢
      rw [ih b hok p, h0]
      simp
    · rw [if_neg h0] at hok ⊢
      cases ht : b.transfer gm.Participant d (participantShare rewardPool T gm) with
      | none =>
        rw [ht] at hok
        cases hok
      | some b2 =>
        rw [ht] at hok
        simp only [] at hok ⊢
        obtain ⟨_, ha⟩ := transfer_some b b2 _ _ _ ht
        rw [ih b2 hok p, ha]
        by_cases hp : gm.Participant = p
        · rw [if_pos hp, if_pos ⟨hp.symm, rfl⟩]
          ring
        · rw [if_neg hp, if_neg (fun e => hp e.1.symm)]
          ring

theorem sharesOf_of_not_mem (rewardPool : Dec) (T : Nat) (p : Address) (ms : List GasMeter)
    (h : p ∉ ms.map (fun gm => gm.Participant)) : sharesOf rewardPool T p ms = 0 := by
  induction ms with
  | nil => rfl
  | cons gm rest ih =>
    rw [List.map_cons, List.mem_cons, not_or] at h
    rw [sharesOf, if_neg (fun e => h.1 e.symm), ih h.2]
    rfl

theorem sharesOf_of_nodup (rewardPool : Dec) (T : Nat) (ms : List GasMeter) (gm : GasMeter)
    (hnd : (ms.map (fun x => x.Participant)).Nodup) (hgm : gm ∈ ms) :
    sharesOf rewardPool T gm.Participant ms = participantShare rewardPool T gm := by
  induction ms with
  | nil => cases hgm
  | cons x rest ih =>
    rw [List.map_cons, List.nodup_cons] at hnd
    rw [sharesOf]
    rcases List.mem_cons.mp hgm with rfl | hin
    · rw [if_pos rfl, sharesOf_of_not_mem _ _ _ _ hnd.1]
      ring
    · have hne : ¬ x.Participant = gm.Participant := by
        intro e
        exact hnd.1 (List.mem_map.mpr ⟨gm, hin, e.symm⟩)
      rw [if_neg hne, ih hnd.2 hin]
      ring

/-- Paying allocations that do not name a denomination leaves it untouched. -/
theorem payAllocations_frame (ms : List GasMeter) (T : Nat) (d : String) (als : DecCoins)
    (hd : mentions d als = false) : ∀ b : Bank,
    (payAllocations ms T als b).2.pool d = b.pool d ∧
      ∀ p, (payAllocations ms T als b).2.accounts p d = b.accounts p d := by
  induction als with
  | nil => intro b; exact ⟨rfl, fun _ => rfl⟩
  | cons al rest ih =>
    intro b
    rw [mentions_cons] at hd
    simp only [Bool.or_eq_false_iff, decide_eq_false_iff_not] at hd
    have hne : d ≠ al.Denom := fun e => hd.1 e.symm
    have hf := payMeters_frame al.Denom (rewardPool (b.pool al.Denom) al.Amount) T
      d hne ms b
    rw [payAllocations]
    cases hp : payMeters al.Denom (rewardPool (b.pool al.Denom) al.Amount) T ms b with
    | mk e b2 =>
      rw [hp] at hf
      cases e with
      | some e => exact hf
      | none =>
        have := ih hd.2 b2
        simp only [] at hf ⊢
        refine ⟨?_, ?_⟩
        · rw [this.1, hf.1]
        · intro p
          rw [this.2 p, hf.2 p]

/-- After a successful payment of allocations with pairwise distinct
denominations, a participant has received, in the denomination of an
allocation, its shares of the reward pool read at the start. -/
theorem payAllocations_credit (ms : List GasMeter) (T : Nat) (als : DecCoins)
    (hnd : (als.map (fun x => x.Denom)).Nodup) : ∀ b : Bank,
    (payAllocations ms T als b).1 = none → ∀ al ∈ als, ∀ p,
      (payAllocations ms T als b).2.accounts p al.Denom =
        b.accounts p al.Denom +
          sharesOf (rewardPool (b.pool al.Denom) al.Amount) T p ms := by
  induction als with
  | nil => intro b _ al hal; cases hal
  | cons x rest ih =>
    intro b hok al hal p
    rw [List.map_cons, List.nodup_cons] at hnd
    rw [payAllocations] at hok ⊢
    cases hp : payMeters x.Denom (rewardPool (b.pool x.Denom) x.Amount) T ms b with
    | mk e b2 =>
      rw [hp] at hok
      cases e with
      | some e => cases hok
      | none =>
        simp only [] at hok ⊢
        have hcred := payMeters_credit x.Denom (rewardPool (b.pool x.Denom) x.Amount)
          T ms b (by rw [hp])
        rw [hp] at hcred
        simp only [] at hcred
        rcases List.mem_cons.mp hal with rfl | hin
        · have hnm : mentions al.Denom rest = false := by
            by_contra hc
            have hc2 : mentions al.Denom rest = true := by simpa using hc
            simp only [mentions, List.any_eq_true, decide_eq_true_eq] at hc2
            obtain ⟨y, hy, hyd⟩ := hc2
            exact hnd.1 (List.mem_map.mpr ⟨y, hy, hyd⟩)
          rw [(payAllocations_frame ms T al.Denom rest hnm b2).2 p, hcred p]
        · have hne : al.Denom ≠ x.Denom := by
            intro e
            exact hnd.1 (List.mem_map.mpr ⟨al, hin, e⟩)
          have hf := payMeters_frame x.Denom (rewardPool (b.pool x.Denom) x.Amount)
            T al.Denom hne ms b
          rw [hp] at hf
          simp only [] at hf
          rw [ih hnd.2 b2 hok al hin p, hf.1, hf.2 p]

/-- The credit of a successful processing of one incentive with usage. -/
theorem distributeIncentive_credit (inc : Incentive) (s : State) (b : Bank)
    (hgas : inc.TotalGas ≠ 0)
    (hnd : (inc.Allocations.map (fun x => x.Denom)).Nodup)
    (hok : (distributeIncentive inc s b).err = none) (al : DecCoin)
    (hal : al ∈ inc.Allocations) (p : Address) :
    (distributeIncentive inc s b).bank.accounts p al.Denom =
      b.accounts p al.Denom +
        sharesOf (rewardPool (b.pool al.Denom) al.Amount) inc.TotalGas p
          (GetIncentiveGasMeters s inc.Contract) := by
  unfold distributeIncentive at hok ⊢
  rw [if_neg hgas] at hok ⊢
  have hc := payAllocations_credit (GetIncentiveGasMeters s inc.Contract) inc.TotalGas
    inc.Allocations hnd b
  cases hp : payAllocations (GetIncentiveGasMeters s inc.Contract) inc.TotalGas
      inc.Allocations b with
  | mk e b2 =>
    rw [hp] at hok hc
    cases e with
    | some e => cases hok
    | none => exact hc rfl al hal p

/-- Paying the meters succeeds when no share is negative and the pooled
balance covers the payouts. -/
theorem payMeters_ok (d : String) (pool : Dec) (T : Nat) (ms : List GasMeter) :
    ∀ b : Bank, (∀ gm ∈ ms, 0 ≤ participantShare pool T gm) →
      payoutsOf pool T ms ≤ b.pool d → (payMeters d pool T ms b).1 = none := by
  induction ms with
  | nil => intro b _ _; rfl
  | cons gm rest ih =>
    intro b hnn hle
    have e1 : payoutsOf pool T (gm :: rest) =
        participantShare pool T gm + payoutsOf pool T rest := by
      simp [payoutsOf]
    have h0 := hnn gm (List.mem_cons_self _ _)
    have hrest : ∀ x ∈ rest, 0 ≤ participantShare pool T x :=
      fun x hx => hnn x (List.mem_cons_of_mem _ hx)
    have hrest0 : 0 ≤ payoutsOf pool T rest := by
      unfold payoutsOf
      apply List.sum_nonneg
      intro v hv
      obtain ⟨x, hx, rfl⟩ := List.mem_map.mp hv
      exact hrest x hx
    rw [e1] at hle
    rw [payMeters]
    by_cases hz : participantShare pool T gm = 0
    · rw [if_pos hz]
      apply ih b hrest
      omega
    · rw [if_neg hz]
      have hc : ¬ (participantShare pool T gm < 0 ∨ b.pool d < participantShare pool T gm) := by
        omega
      have ht : b.transfer gm.Participant d (participantShare pool T gm) =
          some { pool := fun d2 => if d2 = d then b.pool d2 - participantShare pool T gm
                  else b.pool d2
                 accounts := fun a d2 =>
                  if a = gm.Participant ∧ d2 = d then
                    b.accounts a d2 + participantShare pool T gm
                  else b.accounts a d2 } := by
        unfold Bank.transfer
        rw [if_neg hc]
      rw [ht]
      simp only []
      apply ih _ hrest
      simp only [if_true]
      omega

/-- Paying allocations with pairwise distinct denominations, rates between
zero and one and non-negative pooled balances succeeds when the meters add up
to at most the total. -/
theorem payAllocations_ok (ms : List GasMeter) (T : Nat) (hT : 0 < T) (hsum : usageOf ms ≤ T)
    (als : DecCoins) (hnd : (als.map (fun x => x.Denom)).Nodup) : ∀ b : Bank,
    (∀ x ∈ als, 0 ≤ x.Amount.i ∧ x.Amount.i ≤ 10 ^ 18 ∧ 0 ≤ b.pool x.Denom) →
    (payAllocations ms T als b).1 = none := by
  induction als with
  | nil => intro b _; rfl
  | cons x rest ih =>
    intro b h
    rw [List.map_cons, List.nodup_cons] at hnd
    obtain ⟨hr0, hr1, hB⟩ := h x (List.mem_cons_self _ _)
    have hle := payoutsOf_le (b.pool x.Denom) x.Amount T ms hB hr0 hT hsum
    have hcap : b.pool x.Denom * x.Amount.i / 10 ^ 18 ≤ b.pool x.Denom := by
      apply Int.ediv_le_of_le_mul (by norm_num)
      exact Int.mul_le_mul_of_nonneg_left hr1 hB
    have hok := payMeters_ok x.Denom (rewardPool (b.pool x.Denom) x.Amount) T ms b
      (fun gm _ => participantShare_nonneg _ _ _ gm hB hr0 hT) (le_trans hle hcap)
    rw [payAllocations]
    cases hp : payMeters x.Denom (rewardPool (b.pool x.Denom) x.Amount) T ms b with
    | mk e b2 =>
      rw [hp] at hok
      simp only [] at hok
      subst hok
      simp only []
      apply ih hnd.2 b2
      intro y hy
      obtain ⟨hy0, hy1, hyB⟩ := h y (List.mem_cons_of_mem _ hy)
      have hne : y.Denom ≠ x.Denom := by
        intro e
        exact hnd.1 (List.mem_map.mpr ⟨y, hy, e⟩)
      have hf := payMeters_frame x.Denom (rewardPool (b.pool x.Denom) x.Amount) T y.Denom hne ms b
      rw [hp] at hf
      simp only [] at hf
      rw [hf.1]
      exact ⟨hy0, hy1, hyB⟩

/-- The processing of one incentive cannot fail under the same conditions. -/
theorem distributeIncentive_ok (inc : Incentive) (s : State) (b : Bank)
    (hgas : inc.TotalGas ≠ 0)
    (hnd : (inc.Allocations.map (fun x => x.Denom)).Nodup)
    (hsum : usageOf (GetIncentiveGasMeters s inc.Contract) ≤ inc.TotalGas)
    (h : ∀ x ∈ inc.Allocations, 0 ≤ x.Amount.i ∧ x.Amount.i ≤ 10 ^ 18 ∧ 0 ≤ b.pool x.Denom) :
    (distributeIncentive inc s b).err = none := by
  have hok := payAllocations_ok (GetIncentiveGasMeters s inc.Contract) inc.TotalGas
    (Nat.pos_of_ne_zero hgas) hsum inc.Allocations hnd b h
  unfold distributeIncentive
  rw [if_neg hgas]
  cases hp : payAllocations (GetIncentiveGasMeters s inc.Contract) inc.TotalGas
      inc.Allocations b with
  | mk e b2 =>
    rw [hp] at hok
    simp only [] at hok
    subst hok
    rfl

/-- An iteration that got through a first list without error continues with
the rest from where it stands. -/
theorem iterate_distribute_append (pre l : List Incentive) : ∀ acc : DistributeResult,
    (iterateList distributeCallback pre acc).err = none →
    iterateList distributeCallback (pre ++ l) acc =
      iterateList distributeCallback l (iterateList distributeCallback pre acc) := by
  induction pre with
  | nil => intro acc _; rfl
  | cons x rest ih =>
    intro acc hok
    obtain ⟨_, heq⟩ := iterate_distribute_ok x rest acc hok
    rw [heq] at hok ⊢
    rw [List.cons_append, iterate_distribute_cons]
    have hx : (distributeIncentive x acc.state acc.bank).err.isSome = false := by
      obtain ⟨h1, _⟩ := iterate_distribute_ok x rest acc (by rw [heq]; exact hok)
      rw [h1]
      rfl
    rw [hx]
    simp only [Bool.false_eq_true, if_false]
    exact ih _ hok

/-- The incentives that the iteration has not reached keep their meters. -/
theorem metersRead_of_WF (s : State) (b : Bank) (pre post : List Incentive) (inc : Incentive)
    (hsplit : s.incentives = pre ++ inc :: post) (hwf : s.WF) :
    metersRead s b pre inc = GetIncentiveGasMeters s inc.Contract := by
  have hnd := nodup_of_WF s hwf
  rw [hsplit, List.map_append, List.map_cons] at hnd
  have hdis : ∀ x ∈ pre, inc.Contract ≠ x.Contract := by
    intro x hx e
    have h1 := (List.nodup_append.mp hnd).2.2
    exact h1 (List.mem_map.mpr ⟨x, hx, rfl⟩) (List.mem_cons.mpr (Or.inl e.symm))
  exact (iterate_distribute_other pre inc.Contract hdis ⟨none, s, b⟩).2

/-! ## Distribution -/

/-- C12 as stated fails, on four inputs; every call below succeeds.
Exactness: one incentive with rate `0.5` on `acoin` and total gas `6`, three
participants with gas `1`, `1` and `4`, pooled balance `12 * 10^18`; the
participant with gas `1` is credited `999999999999999996`, not
`floor(B * rate * g / T) = 10^18`, because `1/6` is cut after eighteen places
before it is multiplied. Sum: two meters of `1000` under a total gas of `1000`
(a meter left behind by a cancellation, then a new registration and new
usage), rate `0.5`, balance `100`; the payouts add up to `100`, above
`floor(B * rate) = 50`. Twice the same denomination in one incentive (rate
`0.5` each, balance `100`, all of the gas): the participant is credited `75`.
Two incentives on one denomination (rate `0.5` each, balance `100`): the
participant of the second is credited `25`, computed from the balance `50` that
the engine reads when it reaches the second incentive. -/
theorem DistributeIncentives_payout_not_floor :
    (stateSixths.WF ∧
      (DistributeIncentives stateSixths (bankOf (12 * 10 ^ 18))).err = none ∧
      (DistributeIncentives stateSixths (bankOf (12 * 10 ^ 18))).bank.accounts 11 "acoin" =
        999999999999999996 ∧
      (12 * 10 ^ 18 * (5 * 10 ^ 17) * 1 : Int) / (6 * 10 ^ 18) = 10 ^ 18) ∧
    (stateOver.WF ∧
      (DistributeIncentives stateOver (bankOf 100)).err = none ∧
      (DistributeIncentives stateOver (bankOf 100)).bank.accounts 11 "acoin" +
        (DistributeIncentives stateOver (bankOf 100)).bank.accounts 12 "acoin" = 100 ∧
      (100 * (5 * 10 ^ 17) : Int) / 10 ^ 18 = 50) ∧
    (stateDouble.WF ∧
      (DistributeIncentives stateDouble (bankOf 100)).err = none ∧
      (DistributeIncentives stateDouble (bankOf 100)).bank.accounts 11 "acoin" = 75 ∧
      (100 * (5 * 10 ^ 17) * 1000 : Int) / (1000 * 10 ^ 18) = 50) ∧
    (stateShared.WF ∧
      (DistributeIncentives stateShared (bankOf 100)).err = none ∧
      (DistributeIncentives stateShared (bankOf 100)).bank.accounts 12 "acoin" = 25 ∧
      balanceRead stateShared (bankOf 100) (stateShared.incentives.take 1) "acoin" = 50 ∧
      (100 * (5 * 10 ^ 17) * 1000 : Int) / (1000 * 10 ^ 18) = 50) := by
  decide

/-- C12, amended. Let `inc` be a registered incentive with nonzero total gas
`T` whose allocations have pairwise distinct denominations, `(denom, rate)`
one of its allocations and `pre` the incentives before it in key order. Write
`B` for the pooled balance of `denom` that the engine reads when it reaches
`inc` (`balanceRead`) and `ms` for the meters of the contract (`metersRead`,
the meters of the state before the call when the store is well-formed). Then:
when the engine reaches `inc`, the call is the processing of `inc` followed by
the iteration over the rest;
when that processing raises no transfer failure, every participant is
credited, in `denom`, exactly the shares
`TruncateInt((B * rate) * (g / T))` of its meters, quotient and product in
18-place truncating decimal arithmetic, that is the share of its meter when
the ledger holds one meter per participant;
for `B` and `rate` not negative a share lies between `0` and
`floor(B * rate * g / T)` and is `floor(B * rate * g / T)` whenever `g / T`
has no digit beyond the eighteenth place;
when moreover the meters add up to at most `T`, the payouts of the allocation
add up to at most `floor(B * rate)`;
and with all rates of `inc` between `0` and `1`, the balances it reads not
negative and the meters adding up to at most `T`, the processing raises no
transfer failure. -/
theorem DistributeIncentives_payout (s : State) (b : Bank) (pre post : List Incentive)
    (inc : Incentive) (al : DecCoin)
    (hsplit : s.incentives = pre ++ inc :: post)
    (hgas : inc.TotalGas ≠ 0)
    (hal : al ∈ inc.Allocations)
    (hdenoms : (inc.Allocations.map (fun x => x.Denom)).Nodup) :
    ((reached s b pre).err = none →
        DistributeIncentives s b =
          if (processed s b pre inc).err.isSome then processed s b pre inc
          else iterateList distributeCallback post (processed s b pre inc)) ∧
      (s.WF → metersRead s b pre inc = GetIncentiveGasMeters s inc.Contract) ∧
      ((processed s b pre inc).err = none → ∀ participant,
        (processed s b pre inc).bank.accounts participant al.Denom =
          (reached s b pre).bank.accounts participant al.Denom +
            sharesOf (rewardPool (balanceRead s b pre al.Denom) al.Amount) inc.TotalGas
              participant (metersRead s b pre inc)) ∧
      ((processed s b pre inc).err = none →
        ((metersRead s b pre inc).map (fun gm => gm.Participant)).Nodup →
        ∀ gm ∈ metersRead s b pre inc,
          (processed s b pre inc).bank.accounts gm.Participant al.Denom =
            (reached s b pre).bank.accounts gm.Participant al.Denom +
              participantShare (rewardPool (balanceRead s b pre al.Denom) al.Amount)
                inc.TotalGas gm) ∧
      (0 ≤ balanceRead s b pre al.Denom → 0 ≤ al.Amount.i → ∀ gm : GasMeter,
        0 ≤ participantShare (rewardPool (balanceRead s b pre al.Denom) al.Amount)
            inc.TotalGas gm ∧
          participantShare (rewardPool (balanceRead s b pre al.Denom) al.Amount)
              inc.TotalGas gm ≤
            balanceRead s b pre al.Denom * al.Amount.i * (gm.CumulativeGas : Int) /
              ((inc.TotalGas : Int) * 10 ^ 18) ∧
          ((inc.TotalGas : Int) ∣ (gm.CumulativeGas : Int) * 10 ^ 18 →
            participantShare (rewardPool (balanceRead s b pre al.Denom) al.Amount)
                inc.TotalGas gm =
              balanceRead s b pre al.Denom * al.Amount.i * (gm.CumulativeGas : Int) /
                ((inc.TotalGas : Int) * 10 ^ 18))) ∧
      (0 ≤ balanceRead s b pre al.Denom → 0 ≤ al.Amount.i →
        usageOf (metersRead s b pre inc) ≤ inc.TotalGas →
        payoutsOf (rewardPool (balanceRead s b pre al.Denom) al.Amount) inc.TotalGas
            (metersRead s b pre inc) ≤
          balanceRead s b pre al.Denom * al.Amount.i / 10 ^ 18) ∧
      ((∀ x ∈ inc.Allocations,
          0 ≤ x.Amount.i ∧ x.Amount.i ≤ 10 ^ 18 ∧ 0 ≤ balanceRead s b pre x.Denom) →
        usageOf (metersRead s b pre inc) ≤ inc.TotalGas →
        (processed s b pre inc).err = none) := by
  have hT : 0 < inc.TotalGas := Nat.pos_of_ne_zero hgas
  have hcredit : (processed s b pre inc).err = none → ∀ participant,
      (processed s b pre inc).bank.accounts participant al.Denom =
        (reached s b pre).bank.accounts participant al.Denom +
          sharesOf (rewardPool (balanceRead s b pre al.Denom) al.Amount) inc.TotalGas
            participant (metersRead s b pre inc) := by
    intro hok participant
    exact distributeIncentive_credit inc (reached s b pre).state (reached s b pre).bank hgas
      hdenoms hok al hal participant
  refine ⟨?_, ?_, hcredit, ?_, ?_, ?_, ?_⟩
  · intro hreach
    unfold DistributeIncentives IterateIncentives
    rw [hsplit, iterate_distribute_append pre (inc :: post) ⟨none, s, b⟩ hreach,
      iterate_distribute_cons]
    rfl
  · intro hwf
    exact metersRead_of_WF s b pre post inc hsplit hwf
  · intro hok hparts gm hgm
    rw [hcredit hok gm.Participant, sharesOf_of_nodup _ _ _ gm hparts hgm]
  · intro hB hr gm
    exact ⟨participantShare_nonneg _ _ _ gm hB hr hT,
      participantShare_le_floor _ _ _ gm hB hr hT,
      fun hdvd => participantShare_exact _ _ _ gm hB hr hT hdvd⟩
  · intro hB hr hsum
    exact payoutsOf_le _ _ _ _ hB hr hT hsum
  · intro hrates hsum
    exact distributeIncentive_ok inc (reached s b pre).state (reached s b pre).bank hgas
      hdenoms hsum hrates

/-- C12 amended, on the scenario of the test: balance `100`, rate `0.2`, gas
`500` of `1000`. The processing raises no transfer failure, the participant is
credited its share, the share is `floor(100 * 0.2 * 500 / 1000) = 10`, and the
payouts of the allocation are within `floor(100 * 0.2) = 20`. -/
theorem DistributeIncentives_payout_witness :
    (DistributeIncentives (stateTest 2) (bankOf 100)).bank.accounts 77 "acoin" = 10 ∧
      (processed (stateTest 2) (bankOf 100) []
        { Contract := 2, Allocations := [⟨"acoin", ⟨2 * 10 ^ 17⟩⟩], Epochs := 2,
          TotalGas := 1000 }).err = none ∧
      (processed (stateTest 2) (bankOf 100) []
        { Contract := 2, Allocations := [⟨"acoin", ⟨2 * 10 ^ 17⟩⟩], Epochs := 2,
          TotalGas := 1000 }).bank.accounts 77 "acoin" =
        (reached (stateTest 2) (bankOf 100) []).bank.accounts 77 "acoin" +
          participantShare
            (rewardPool (balanceRead (stateTest 2) (bankOf 100) [] "acoin") ⟨2 * 10 ^ 17⟩)
            1000 ⟨2, 77, 500⟩ ∧
      participantShare
          (rewardPool (balanceRead (stateTest 2) (bankOf 100) [] "acoin") ⟨2 * 10 ^ 17⟩)
          1000 ⟨2, 77, 500⟩ =
        balanceRead (stateTest 2) (bankOf 100) [] "acoin" * (2 * 10 ^ 17) * (500 : Nat) /
          ((1000 : Nat) * 10 ^ 18) ∧
      balanceRead (stateTest 2) (bankOf 100) [] "acoin" * (2 * 10 ^ 17) * (500 : Nat) /
          ((1000 : Nat) * 10 ^ 18) = 10 ∧
      payoutsOf
          (rewardPool (balanceRead (stateTest 2) (bankOf 100) [] "acoin") ⟨2 * 10 ^ 17⟩)
          1000 (metersRead (stateTest 2) (bankOf 100) []
            { Contract := 2, Allocations := [⟨"acoin", ⟨2 * 10 ^ 17⟩⟩], Epochs := 2,
              TotalGas := 1000 }) ≤
        balanceRead (stateTest 2) (bankOf 100) [] "acoin" * (2 * 10 ^ 17) / 10 ^ 18 :=
  have h := DistributeIncentives_payout (stateTest 2) (bankOf 100) [] []
    { Contract := 2, Allocations := [⟨"acoin", ⟨2 * 10 ^ 17⟩⟩], Epochs := 2, TotalGas := 1000 }
    ⟨"acoin", ⟨2 * 10 ^ 17⟩⟩
    (by decide) (by decide) (by decide) (by decide)
  have hok := h.2.2.2.2.2.2 (by decide) (by decide)
  ⟨by decide, hok, h.2.2.2.1 hok (by decide) ⟨2, 77, 500⟩ (by decide),
    ((h.2.2.2.2.1 (by decide) (by decide) ⟨2, 77, 500⟩).2.2 (by decide)),
    by decide, h.2.2.2.2.2.1 (by decide) (by decide) (by decide)⟩

/-- C13 as stated fails when the usage is zero: contract `1` has two epochs
left, total gas zero and a meter of participant `77`. The call succeeds and
the epochs go down to one, but the meter is still found afterwards. -/
theorem DistributeIncentives_idle_keeps_meters :
    stateIdle.WF ∧
      GetIncentive stateIdle 1 =
        some { Contract := 1, Allocations := [⟨"acoin", ⟨6 * 10 ^ 17⟩⟩], Epochs := 2, TotalGas := 0 } ∧
      (DistributeIncentives stateIdle (bankOf 100)).err = none ∧
      GetIncentive (DistributeIncentives stateIdle (bankOf 100)).state 1 =
        some { Contract := 1, Allocations := [⟨"acoin", ⟨6 * 10 ^ 17⟩⟩], Epochs := 1, TotalGas := 0 } ∧
      GetIncentiveGasMeter (DistributeIncentives stateIdle (bankOf 100)).state 1 77 = some 500 := by
  decide

/-- C13, amended. For every registered incentive with more than one epoch
left, a successful `DistributeIncentives` leaves it registered with the epochs
decreased by exactly one and total gas zero; when its total gas was nonzero no
meter of the contract remains (every lookup reports not-found), and when its
total gas was zero the meters of the contract are left as they were. -/
theorem DistributeIncentives_epochs_left (s : State) (b : Bank) (contract : Address)
    (inc : Incentive)
    (hwf : s.WF) (hget : GetIncentive s contract = some inc) (hep : 1 < inc.Epochs)
    (hok : (DistributeIncentives s b).err = none) :
    GetIncentive (DistributeIncentives s b).state contract =
        some { inc with Epochs := inc.Epochs - 1, TotalGas := 0 } ∧
      (inc.TotalGas ≠ 0 →
        GetIncentiveGasMeters (DistributeIncentives s b).state contract = [] ∧
        ∀ participant,
          GetIncentiveGasMeter (DistributeIncentives s b).state contract participant = none) ∧
      (inc.TotalGas = 0 →
        GetIncentiveGasMeters (DistributeIncentives s b).state contract =
          GetIncentiveGasMeters s contract ∧
        ∀ participant,
          GetIncentiveGasMeter (DistributeIncentives s b).state contract participant =
            GetIncentiveGasMeter s contract participant) := by
  obtain ⟨hmem, hc⟩ := mem_of_GetIncentive s contract inc hget
  subst hc
  have h := iterate_distribute_self s.incentives (nodup_of_WF s hwf) ⟨none, s, b⟩ hok inc hmem
  have hne : ¬ inc.Epochs - 1 = 0 := by omega
  rw [if_neg hne] at h
  refine ⟨h.1, ?_, ?_⟩
  · intro h0
    have hm : GetIncentiveGasMeters (DistributeIncentives s b).state inc.Contract = [] := by
      have := h.2
      rw [if_neg h0] at this
      exact this
    refine ⟨hm, fun participant => ?_⟩
    rw [GetIncentiveGasMeter_eq, hm]
    rfl
  · intro h0
    have hm : GetIncentiveGasMeters (DistributeIncentives s b).state inc.Contract =
        GetIncentiveGasMeters s inc.Contract := by
      have := h.2
      rw [if_pos h0] at this
      exact this
    refine ⟨hm, fun participant => ?_⟩
    rw [GetIncentiveGasMeter_eq, GetIncentiveGasMeter_eq, hm]

/-- C13 amended, on the scenario of the test with two epochs: one epoch is
left, the total gas is zero and the meter of participant `77` is gone. -/
theorem DistributeIncentives_epochs_left_witness :
    GetIncentive (DistributeIncentives (stateTest 2) (bankOf 100)).state 2 =
        some { Contract := 2, Allocations := [⟨"acoin", ⟨2 * 10 ^ 17⟩⟩], Epochs := 1, TotalGas := 0 } ∧
      GetIncentiveGasMeter (DistributeIncentives (stateTest 2) (bankOf 100)).state 2 77 = none :=
  have h := DistributeIncentives_epochs_left (stateTest 2) (bankOf 100) 2
    { Contract := 2, Allocations := [⟨"acoin", ⟨2 * 10 ^ 17⟩⟩], Epochs := 2, TotalGas := 1000 }
    (by decide) (by decide) (by decide) (by decide)
  ⟨h.1, (h.2.1 (by decide)).2 77⟩

/-- C14: for every registered incentive with exactly one epoch left and
nonzero total gas, a successful `DistributeIncentives` removes the incentive
from the registry (the lookup reports not-found) and removes every meter of
its contract. -/
theorem DistributeIncentives_last_epoch (s : State) (b : Bank) (contract : Address)
    (inc : Incentive)
    (hwf : s.WF) (hget : GetIncentive s contract = some inc) (hep : inc.Epochs = 1)
    (hgas : inc.TotalGas ≠ 0)
    (hok : (DistributeIncentives s b).err = none) :
    GetIncentive (DistributeIncentives s b).state contract = none ∧
      IsIncentiveRegistered (DistributeIncentives s b).state contract = false ∧
      GetIncentiveGasMeters (DistributeIncentives s b).state contract = [] ∧
      ∀ participant,
        GetIncentiveGasMeter (DistributeIncentives s b).state contract participant = none := by
  obtain ⟨hmem, hc⟩ := mem_of_GetIncentive s contract inc hget
  subst hc
  have h := iterate_distribute_self s.incentives (nodup_of_WF s hwf) ⟨none, s, b⟩ hok inc hmem
  have h0 : inc.Epochs - 1 = 0 := by omega
  rw [if_pos h0, if_neg hgas] at h
  have h1 : GetIncentive (DistributeIncentives s b).state inc.Contract = none := h.1
  have hm : GetIncentiveGasMeters (DistributeIncentives s b).state inc.Contract = [] := h.2
  refine ⟨h1, ?_, hm, fun participant => ?_⟩
  · unfold IsIncentiveRegistered
    rw [h1]
    rfl
  · rw [GetIncentiveGasMeter_eq, hm]
    rfl

/-- C14 on the scenario of the test with one epoch: the incentive and the
meter of participant `77` are gone, and the participant has been paid. -/
theorem DistributeIncentives_last_epoch_witness :
    (DistributeIncentives (stateTest 1) (bankOf 100)).bank.accounts 77 "acoin" = 10 ∧
      (GetIncentive (DistributeIncentives (stateTest 1) (bankOf 100)).state 2 = none ∧
        IsIncentiveRegistered (DistributeIncentives (stateTest 1) (bankOf 100)).state 2 = false ∧
        GetIncentiveGasMeters (DistributeIncentives (stateTest 1) (bankOf 100)).state 2 = [] ∧
        ∀ participant,
          GetIncentiveGasMeter (DistributeIncentives (stateTest 1) (bankOf 100)).state 2
            participant = none) :=
  ⟨by decide,
    DistributeIncentives_last_epoch (stateTest 1) (bankOf 100) 2
      { Contract := 2, Allocations := [⟨"acoin", ⟨2 * 10 ^ 17⟩⟩], Epochs := 1, TotalGas := 1000 }
      (by decide) (by decide) (by decide) (by decide) (by decide)⟩

end Incentives
